import Mathlib

/-!
The proxygen generator: resolution of an interface into a proxy descriptor.

A shallow embedding of `generate/generate.go` and `templates/template.go`.

* The Go syntax tree is reduced to the nodes the generator inspects: import
  specs, type specs, interface method lists, parameter and result fields, and
  the expression nodes reached by `ast.Inspect`.
* `packages.Load`, `NewTypeProcessor`, `format.Source`, `os.Create` and
  `File.Write` are external collaborators; they are fields of `World`.
* `getInterfaceData` recurses without a bound in Go.  The embedding carries a
  fuel argument: `none` stands for a call that does not return, `some (.error e)`
  for a returned error, `some (.ok d)` for a returned descriptor.
-/

namespace Proxygen

/-! ## Data model (generate.go, lines 17-45) -/

/-- Go struct `ImportData`. -/
structure ImportData where
  Path : String
  Name : String
  Alias : String
  Used : Bool
  deriving DecidableEq, Repr, Inhabited

/-- Method `ImportData.Selector`: the alias when it is not empty, the name otherwise. -/
def ImportData.Selector (id : ImportData) : String :=
  if id.Alias ≠ "" then id.Alias else id.Name

/-- Go struct `MethodData`. -/
structure MethodData where
  Name : String
  Params : List String
  Rets : List String
  deriving DecidableEq, Repr, Inhabited

/-- Go struct `InterfaceData`. -/
structure InterfaceData where
  InterfacePackage : String
  InterfaceName : String
  Imports : List ImportData
  Methods : List MethodData
  ImplementationType : String
  OriginalPackageName : String
  deriving DecidableEq, Repr, Inhabited

/-- Errors the generator returns.  `packageNotFound p` is
`fmt.Errorf("package %s not found", p)`, `interfaceNotFound n` is
`fmt.Errorf("interface %s not found", n)`; `load` and `typeProcessor` carry the
error of `packages.Load` and of `NewTypeProcessor`; the last three are the
wrapped errors of `format.Source`, `os.Create` and `File.Write`. -/
inductive Error where
  | load (msg : String)
  | packageNotFound (pkgPath : String)
  | interfaceNotFound (name : String)
  | typeProcessor (msg : String)
  | formatting (msg : String)
  | creatingFile (msg : String)
  | writingFile (msg : String)
  deriving DecidableEq, Repr, Inhabited

/-! ## Syntax trees (go/ast), reduced to what the generator reads -/

/-- An `ast.Expr` as `ast.Inspect` sees it in `getInterfaceData`: an `*ast.Ident`,
an `*ast.SelectorExpr` (`x` is the source text of its `X` operand, `sel` the
selected name), or any other node, with the child nodes a walk descends into. -/
inductive Expr where
  | ident (name : String)
  | selector (x : String) (sel : String)
  | other (kind : String) (children : List Expr)
  deriving Repr, Inhabited

/-- An `ast.Field` of a parameter list or a result list: the names declared in
the field (several for `a, b int`, none for an unnamed parameter) and their type. -/
structure Field where
  Names : List String
  Typ : Expr
  deriving Repr, Inhabited

/-- An `*ast.FuncType`: `Params.List` and `Results.List` (a nil list is `[]`). -/
structure FuncType where
  Params : List Field
  Results : List Field
  deriving Repr, Inhabited

/-- The `Type` field of an entry of an interface method list: an `*ast.FuncType` for a
method, another expression for an embedded element. -/
inductive FieldType where
  | func (t : FuncType)
  | expr (e : Expr)
  deriving Repr, Inhabited

/-- An entry of `InterfaceType.Methods.List`. -/
structure InterfaceField where
  Names : List String
  Typ : FieldType
  deriving Repr, Inhabited

/-- The `Type` field of an `*ast.TypeSpec`: an `*ast.InterfaceType` with its method
list, or a type of another kind. -/
inductive SpecType where
  | interfaceType (methods : List InterfaceField)
  | otherType
  deriving Repr, Inhabited

/-- An `*ast.TypeSpec`. -/
structure TypeSpec where
  Name : String
  Typ : SpecType
  deriving Repr, Inhabited

/-- An `*ast.ImportSpec`: the local name when one is written, and the path
literal with its quotes. -/
structure ImportSpec where
  Name : Option String
  PathValue : String
  deriving Repr, Inhabited

/-- An `*ast.File`: its file name, and the import specs and the type specs that
`ast.Inspect` visits, in the order of the walk. -/
structure File where
  Filename : String
  Imports : List ImportSpec
  Types : List TypeSpec
  deriving Repr, Inhabited

/-- An entry of `packages.Package.Imports`. -/
structure PackageImport where
  PkgPath : String
  Name : String
  deriving DecidableEq, Repr, Inhabited

/-- A `packages.Package`.  `Imports` is a Go map; the list is the order in which
the `range` statement of `getInterfaceData` yields its entries. -/
structure Package where
  PkgPath : String
  Name : String
  Imports : List PackageImport
  Syntax : List File
  deriving Repr, Inhabited

/-- Modelled from the spec: the TypeQualifier (`TypeProcessor.correctType`), whose
source file is not available.  `render` is the qualified type expression it
returns; `uses` tells which entries of `newImports` (by index) the returned
expression references, which are the entries whose `Used` flag it sets. -/
structure TypeProcessor where
  render : Expr → List ImportData → List ImportData → String → String
  uses : Expr → List ImportData → List ImportData → String → Nat → Bool

/-- The collaborators of the generator.  `IsUpper` is Go's `unicode.IsUpper`, the
test for the upper-case letters of Unicode, whose table belongs to the Go
library. -/
structure World where
  IsUpper : Char → Bool
  Load : String → Except String (List Package)
  NewTypeProcessor : Package → String → Except String TypeProcessor
  formatSource : String → Except String String
  createFile : String → Except String Unit
  writeFile : String → String → Except String Unit

/-! ## getPackage (generate.go, lines 307-329) -/

/-- The loop of `getPackage`: the first package whose path is the requested one. -/
def findPackage (pkgPath : String) : List Package → Option Package
  | [] => none
  | p :: ps => if p.PkgPath = pkgPath then some p else findPackage pkgPath ps

/-- Function `Generator.getPackage`. -/
def getPackage (w : World) (pkgPath : String) : Except Error Package :=
  match w.Load pkgPath with
  | .error msg => .error (.load msg)
  | .ok pkgs =>
    match findPackage pkgPath pkgs with
    | none => .error (.packageNotFound pkgPath)
    | some pkg => .ok pkg

/-! ## getInterface (generate.go, lines 331-355) -/

/-- Go `ast.IsExported`: the first character of the name is an upper-case
letter; `isUpper` is Go's `unicode.IsUpper`. -/
def IsExported (isUpper : Char → Bool) (name : String) : Bool :=
  match name.data with
  | [] => false
  | c :: _ => isUpper c

/-- One step of the walk of `getInterface` at a type spec: an exported type spec
with the requested name and an interface type replaces the value found so far. -/
def getInterfaceVisit (isUpper : Char → Bool) (name : String) (rv : Option TypeSpec)
    (t : TypeSpec) : Option TypeSpec :=
  if !IsExported isUpper t.Name then rv
  else if t.Name ≠ name then rv
  else
    match t.Typ with
    | .interfaceType _ => some t
    | .otherType => rv

/-- Function `Generator.getInterface`. -/
def getInterface (w : World) (fileAst : File) (name : String) : Except Error TypeSpec :=
  match fileAst.Types.foldl (getInterfaceVisit w.IsUpper name) none with
  | none => .error (.interfaceNotFound name)
  | some rv => .ok rv

/-- The method list of a type spec that `getInterface` returned. -/
def TypeSpec.methods (t : TypeSpec) : List InterfaceField :=
  match t.Typ with
  | .interfaceType ms => ms
  | .otherType => []

/-! ## getInterfaceData (generate.go, lines 128-305) -/

/-- The entry appended for a package import (lines 151-158): no alias, not used. -/
def importEntry (imp : PackageImport) : ImportData :=
  { Path := imp.PkgPath, Name := imp.Name, Alias := "", Used := false }

/-- The list `existingImports` after the loop of lines 150-159. -/
def loadExistingImports (pkg : Package) : List ImportData :=
  pkg.Imports.map importEntry

/-- The list `newImports` after the loop of lines 150-159: the entry of the
interface package itself, then one entry for each import of the package. -/
def loadNewImports (interfacePackage : String) (pkg : Package) : List ImportData :=
  { Path := interfacePackage, Name := pkg.Name, Alias := "", Used := false } ::
    pkg.Imports.map importEntry

/-- The alias of line 166, `fmt.Sprintf("import%s%s%d", pkg.Name, interfaceName, i)`. -/
def importAlias (pkgName interfaceName : String) (i : Nat) : String :=
  "import" ++ pkgName ++ interfaceName ++ toString i

/-- The loop of lines 163-167 from index `i` on: entry `i` gets alias `i`. -/
def aliasImports (pkgName interfaceName : String) : Nat → List ImportData → List ImportData
  | _, [] => []
  | i, imp :: rest =>
    { imp with Alias := importAlias pkgName interfaceName i } ::
      aliasImports pkgName interfaceName (i + 1) rest

/-- Go `strings.ReplaceAll(v, "\"", "")`. -/
def removeQuotes (v : String) : String :=
  String.mk (v.data.filter (fun c => c ≠ '"'))

/-- The visit of one `*ast.ImportSpec` (lines 181-191): when the spec has a local
name, every existing import with the path of the spec takes that name as alias. -/
def updateAlias (existingImports : List ImportData) (t : ImportSpec) : List ImportData :=
  match t.Name with
  | none => existingImports
  | some n =>
    existingImports.map
      (fun imp => if imp.Path = removeQuotes t.PathValue then { imp with Alias := n } else imp)

/-- The walk of lines 179-195 over the import specs of the file. -/
def updateAliases (fileAst : File) (existingImports : List ImportData) : List ImportData :=
  fileAst.Imports.foldl updateAlias existingImports

/-- The effect of `correctType` on `newImports`: the entries the returned
expression references become used; no other field changes. -/
def markUsed (uses : Nat → Bool) : Nat → List ImportData → List ImportData
  | _, [] => []
  | i, imp :: rest => { imp with Used := imp.Used || uses i } :: markUsed uses (i + 1) rest

/-- A call `tp.correctType(expr, existingImports, newImports, interfacePackage)`:
the returned string and `newImports` after the call. -/
def TypeProcessor.correctType (tp : TypeProcessor) (e : Expr)
    (existingImports newImports : List ImportData) (interfacePackage : String) :
    String × List ImportData :=
  (tp.render e existingImports newImports interfacePackage,
    markUsed (tp.uses e existingImports newImports interfacePackage) 0 newImports)

/-- The loops of lines 220-230 and 234-244: one `correctType` call, and one
appended string, for each field of the list. -/
def correctFields (tp : TypeProcessor) (existingImports : List ImportData)
    (interfacePackage : String) : List Field → List ImportData → List String × List ImportData
  | [], newImports => ([], newImports)
  | f :: fs, newImports =>
    let r := tp.correctType f.Typ existingImports newImports interfacePackage
    let rs := correctFields tp existingImports interfacePackage fs r.2
    (r.1 :: rs.1, rs.2)

/-- The body of the loop of lines 207-250 for one entry of the method list:
`none` for an entry without a name, the method data otherwise. -/
def methodOfField (tp : TypeProcessor) (existingImports : List ImportData)
    (interfacePackage : String) (m : InterfaceField) (newImports : List ImportData) :
    Option MethodData × List ImportData :=
  match m.Names with
  | [] => (none, newImports)
  | name :: _ =>
    match m.Typ with
    | .func t =>
      let ps := correctFields tp existingImports interfacePackage t.Params newImports
      let rs := correctFields tp existingImports interfacePackage t.Results ps.2
      (some { Name := name, Params := ps.1, Rets := rs.1 }, rs.2)
    | .expr _ => (some { Name := name, Params := [], Rets := [] }, newImports)

/-- The loop of lines 207-250: the methods appended to `data.Methods`, and
`newImports` after the loop. -/
def collectMethods (tp : TypeProcessor) (existingImports : List ImportData)
    (interfacePackage : String) : List InterfaceField → List ImportData →
    List MethodData × List ImportData
  | [], newImports => ([], newImports)
  | m :: ms, newImports =>
    let r := methodOfField tp existingImports interfacePackage m newImports
    let rs := collectMethods tp existingImports interfacePackage ms r.2
    (r.1.toList ++ rs.1, rs.2)

/-- The `*ast.SelectorExpr` case of lines 270-284: the first existing import
whose selector is the text of the qualifier and whose path some entry of
`newImports` has gives the queue entry. -/
def selectorTarget (existingImports newImports : List ImportData) (x sel : String) :
    Option (String × String) :=
  existingImports.findSome? (fun i =>
    if i.Selector = x then
      (newImports.find? (fun n => n.Path = i.Path)).map (fun n => (n.Path, sel))
    else none)

mutual
/-- The walk of lines 259-288 below an expression: the queue entries it appends. -/
def inspectExpr (existingImports newImports : List ImportData) (interfacePackage : String) :
    Expr → List (String × String)
  | .ident name => [(interfacePackage, name)]
  | .selector x sel => (selectorTarget existingImports newImports x sel).toList
  | .other _ children => inspectExprs existingImports newImports interfacePackage children
/-- The walk of lines 259-288 over a list of sibling expressions. -/
def inspectExprs (existingImports newImports : List ImportData) (interfacePackage : String) :
    List Expr → List (String × String)
  | [] => []
  | e :: es =>
    inspectExpr existingImports newImports interfacePackage e ++
      inspectExprs existingImports newImports interfacePackage es
end

/-- The `*ast.Field` case of lines 261-266 inside a function type: the walk
goes below a field only when it has no name. -/
def inspectParam (existingImports newImports : List ImportData) (interfacePackage : String)
    (f : Field) : List (String × String) :=
  if f.Names.length = 0 then inspectExpr existingImports newImports interfacePackage f.Typ
  else []

/-- The walk of lines 259-288 at one entry of the method list. -/
def inspectField (existingImports newImports : List ImportData) (interfacePackage : String)
    (f : InterfaceField) : List (String × String) :=
  if f.Names.length = 0 then
    match f.Typ with
    | .expr e => inspectExpr existingImports newImports interfacePackage e
    | .func t =>
      (t.Params ++ t.Results).flatMap
        (inspectParam existingImports newImports interfacePackage)
  else []

/-- The queue built by lines 258-288. -/
def embeddedQueue (existingImports newImports : List ImportData) (interfacePackage : String)
    (methods : List InterfaceField) : List (String × String) :=
  methods.flatMap (inspectField existingImports newImports interfacePackage)

/-- The loop of lines 290-301.  `resolve` is the recursive call; a call that
does not return stops the loop, a returned error skips the entry. -/
def mergeEmbedded (resolve : String → String → Option (Except Error InterfaceData)) :
    List (String × String) → InterfaceData → Option InterfaceData
  | [], data => some data
  | embeddedIface :: queue, data =>
    match resolve embeddedIface.1 embeddedIface.2 with
    | none => none
    | some (.error _) => mergeEmbedded resolve queue data
    | some (.ok embeddedData) =>
      mergeEmbedded resolve queue
        { data with
          Imports := data.Imports ++ embeddedData.Imports
          Methods := data.Methods ++ embeddedData.Methods }

/-- The variables that the loop over the files (lines 170-302) updates. -/
structure ResolveState where
  data : InterfaceData
  existingImports : List ImportData
  newImports : List ImportData
  deriving Repr, Inhabited

/-- Lines 196-301 for a file in which `getInterface` found `ifaceTypeSpec`, with
the type processor `tp` of line 202.  The entries of `data.Imports` are the
pointers of `newImports`, so they show the `Used` flags that later
`correctType` calls set. -/
def resolveInterface (resolve : String → String → Option (Except Error InterfaceData))
    (tp : TypeProcessor) (interfacePackage : String) (ifaceTypeSpec : TypeSpec)
    (st : ResolveState) : Option ResolveState :=
  let ms := collectMethods tp st.existingImports interfacePackage ifaceTypeSpec.methods
    st.newImports
  let impl := tp.correctType (.ident ifaceTypeSpec.Name) st.existingImports ms.2
    interfacePackage
  let queue := embeddedQueue st.existingImports impl.2 interfacePackage ifaceTypeSpec.methods
  match mergeEmbedded resolve queue
      { st.data with
        Imports := impl.2
        Methods := st.data.Methods ++ ms.1
        ImplementationType := impl.1 } with
  | none => none
  | some data => some { data := data, existingImports := st.existingImports, newImports := impl.2 }

/-- The loop of lines 170-302 and the return of line 304. -/
def resolveFiles (w : World) (resolve : String → String → Option (Except Error InterfaceData))
    (pkg : Package) (interfacePackage interfaceName : String) :
    List File → ResolveState → Option (Except Error InterfaceData)
  | [], st => some (.ok st.data)
  | fileAst :: files, st =>
    match getInterface w fileAst interfaceName with
    | .error _ => resolveFiles w resolve pkg interfacePackage interfaceName files st
    | .ok ifaceTypeSpec =>
      let existingImports := updateAliases fileAst st.existingImports
      match w.NewTypeProcessor pkg fileAst.Filename with
      | .error msg => some (.error (.typeProcessor msg))
      | .ok tp =>
        match resolveInterface resolve tp interfacePackage ifaceTypeSpec
            { st with existingImports := existingImports } with
        | none => none
        | some st1 => resolveFiles w resolve pkg interfacePackage interfaceName files st1

/-- The state before the loop over the files (lines 132-167). -/
def initialState (pkg : Package) (interfacePackage interfaceName : String) : ResolveState :=
  { data :=
      { InterfacePackage := interfacePackage
        InterfaceName := interfaceName
        Imports := []
        Methods := []
        ImplementationType := ""
        OriginalPackageName := pkg.Name }
    existingImports := loadExistingImports pkg
    newImports := aliasImports pkg.Name interfaceName 0 (loadNewImports interfacePackage pkg) }

/-- Function `Generator.getInterfaceData`, with fuel for the depth of the
recursion: `none` when the fuel does not suffice. -/
def getInterfaceData (w : World) : Nat → String → String → Option (Except Error InterfaceData)
  | 0, _, _ => none
  | fuel + 1, interfacePackage, interfaceName =>
    match getPackage w interfacePackage with
    | .error e => some (.error e)
    | .ok pkg =>
      resolveFiles w (getInterfaceData w fuel) pkg interfacePackage interfaceName pkg.Syntax
        (initialState pkg interfacePackage interfaceName)

/-! ## ProxyTemplate (template.go), as `text/template` executes it

Each text of the template is written after the trim markers next to it have
removed the white space they remove; `\x7b` and `\x7d` are the two braces. -/

/-- A `range $idx, $x := list` action whose first index is `idx`: the body is
executed for each element, with its index, and the outputs are concatenated. -/
def templateRange {α : Type} (body : Nat → α → String) : Nat → List α → String
  | _, [] => ""
  | idx, x :: xs => body idx x ++ templateRange body (idx + 1) xs

/-- Lines 10-12: the body of the range over the imports. -/
def renderImport (imp : ImportData) : String :=
  "\n    " ++ (if imp.Used then " " ++ imp.Alias ++ " \"" ++ imp.Path ++ "\" " else "")

/-- Lines 3-20: the package clause, the import block, the proxy type and the
assertion that the proxy implements the interface. -/
def renderHeader (packageName name : String) (data : InterfaceData) : String :=
  "// Code generated by proxygen. DO NOT EDIT.\npackage " ++ packageName ++
  "\n\nimport (\n    proxygenInterceptors \"github.com/panagiotisptr/proxygen/interceptor\"" ++
  "\n    proxygenCaster \"github.com/panagiotisptr/proxygen/caster\"\n\n    " ++
  templateRange (fun _ imp => renderImport imp) 0 data.Imports ++
  "\n)\n\ntype " ++ name ++ " struct \x7b\n\tImplementation " ++ data.ImplementationType ++
  "\n\tInterceptors   proxygenInterceptors.InterceptorChain\n\x7d\n\nvar _ " ++
  data.ImplementationType ++ " = (*" ++ name ++ ")(nil)"

/-- Lines 24-34: the receiver, the method name, the parameter list and the
result list of the wrapper, up to the brace that opens its body. -/
def renderSignature (name : String) (method : MethodData) : String :=
  "\n\nfunc (this *" ++ name ++ ") " ++ method.Name ++ "(" ++
  (if method.Params.length > 0 then
    templateRange (fun idx param => "\n   arg" ++ toString idx ++ " " ++ param ++ ",") 0
      method.Params ++ "\n"
   else "") ++
  ") " ++
  (if method.Rets.length ≠ 0 then
    "(" ++ templateRange (fun _ ret => "\n   " ++ ret ++ ",") 0 method.Rets ++ "\n) "
   else "") ++
  "\x7b\n    "

/-- Lines 35-39: the start of the statement that calls `Apply`. -/
def renderApply (method : MethodData) : String :=
  if method.Rets.length ≠ 0 then "rets := this.Interceptors.Apply("
  else "this.Interceptors.Apply("

/-- Lines 40-47: the argument list and the method name passed to `Apply`. -/
def renderArguments (method : MethodData) : String :=
  "\n        []interface\x7b\x7d\x7b" ++
  (if method.Params.length > 0 then
    templateRange (fun idx (_ : String) => "\n           arg" ++ toString idx ++ ",") 0
      method.Params ++ "\n        "
   else "") ++
  "\x7d,\n        \"" ++ method.Name ++ "\","

/-- Lines 58-63 and 66-71: the arguments of the call of the implementation. -/
def renderCallArguments (method : MethodData) : String :=
  "(" ++
  (if method.Params.length > 0 then
    templateRange
      (fun idx param => "\n                   args[" ++ toString idx ++ "].(" ++ param ++ "),") 0
      method.Params ++ "\n                "
   else "") ++
  ")"

/-- Lines 48-82: the continuation passed to `Apply`. -/
def renderContinuation (method : MethodData) : String :=
  "\n        func(args []interface\x7b\x7d) []interface\x7b\x7d \x7b\n            " ++
  (if method.Rets.length ≠ 0 then
    templateRange
      (fun idx (_ : String) =>
        if idx ≠ 0 then ",\n            res" ++ toString idx else "res" ++ toString idx) 0
      method.Rets ++
    " := this.Implementation." ++ method.Name ++ renderCallArguments method
   else "this.Implementation." ++ method.Name ++ renderCallArguments method) ++
  "\n        " ++
  (if method.Rets.length = 0 then "\n            return []interface\x7b\x7d\x7b\x7d"
   else
    "\n            return []interface\x7b\x7d\x7b" ++
    templateRange (fun idx (_ : String) => "\n                res" ++ toString idx ++ ",") 0
      method.Rets ++
    "\n            \x7d") ++
  "\n        \x7d,\n    )\n\n    "

/-- Lines 85-95: the return statement of the wrapper and the brace that closes it. -/
def renderReturn (method : MethodData) : String :=
  (if method.Rets.length ≠ 0 then
    "return " ++
    templateRange
      (fun idx ret =>
        if idx ≠ 0 then
          ",\n        proxygenCaster.Cast[" ++ ret ++ "](rets[" ++ toString idx ++ "])"
        else "proxygenCaster.Cast[" ++ ret ++ "](rets[" ++ toString idx ++ "])") 0
      method.Rets
   else "") ++
  "\n\x7d"

/-- Lines 22-96: the body of the range over the methods. -/
def renderMethod (name : String) (method : MethodData) : String :=
  renderSignature name method ++ renderApply method ++ renderArguments method ++
  renderContinuation method ++ renderReturn method

/-- The execution of `ProxyTemplate` on the data of lines 95-103. -/
def renderProxy (packageName name : String) (data : InterfaceData) : String :=
  renderHeader packageName name data ++
  templateRange (fun _ method => renderMethod name method) 0 data.Methods

/-! ## GenerateProxy (generate.go, lines 67-126) -/

/-- Go `strings.Split(s, sep)` for a separator of one character, on the
characters of `s`. -/
def stringsSplit (sep : Char) : List Char → List (List Char)
  | [] => [[]]
  | c :: cs =>
    if c = sep then [] :: stringsSplit sep cs
    else
      match stringsSplit sep cs with
      | [] => [[c]]
      | s :: ss => (c :: s) :: ss

/-- Go `strings.Join(elems, sep)`, on lists of characters. -/
def stringsJoin (sep : List Char) : List (List Char) → List Char
  | [] => []
  | [s] => s
  | s :: t :: rest => s ++ sep ++ stringsJoin sep (t :: rest)

/-- Lines 73-75: the package path and the interface name of a dotted path. -/
def splitInterfacePath (interfacePath : String) : String × String :=
  let sections := stringsSplit '.' interfacePath.data
  (String.mk (stringsJoin ['.'] sections.dropLast), String.mk (sections.getLastD []))

/-- The loop of lines 84-89: the first entry with the path becomes used. -/
def markPackageUsed (packagePath : String) : List ImportData → List ImportData
  | [] => []
  | imp :: rest =>
    if imp.Path = packagePath then { imp with Used := true } :: rest
    else imp :: markPackageUsed packagePath rest

/-- Lines 82-90: the imports fixed for the main package. -/
def fixImports (data : InterfaceData) (packagePath packageName : String) : InterfaceData :=
  if data.OriginalPackageName ≠ packageName then
    { data with Imports := markPackageUsed packagePath data.Imports }
  else data

/-- What a call of `GenerateProxy` does to the file system. -/
inductive FileEffect where
  | create (path : String)
  | write (path : String) (content : String)
  deriving DecidableEq, Repr, Inhabited

/-- The result of a call of `GenerateProxy` that returns: the error (`none` for
nil) and the effects on the file system, in order. -/
structure ProxyResult where
  err : Option Error
  effects : List FileEffect
  deriving DecidableEq, Repr, Inhabited

/-- Function `Generator.GenerateProxy`, with the fuel of `getInterfaceData`. -/
def GenerateProxy (w : World) (fuel : Nat) (interfacePath packageName name output : String) :
    Option ProxyResult :=
  let packagePath := (splitInterfacePath interfacePath).1
  let interfaceName := (splitInterfacePath interfacePath).2
  match getInterfaceData w fuel packagePath interfaceName with
  | none => none
  | some (.error err) => some { err := some err, effects := [] }
  | some (.ok data) =>
    let generatedProxy := renderProxy packageName name (fixImports data packagePath packageName)
    match w.formatSource generatedProxy with
    | .error msg => some { err := some (.formatting msg), effects := [] }
    | .ok formattedContent =>
      match w.createFile output with
      | .error msg => some { err := some (.creatingFile msg), effects := [] }
      | .ok _ =>
        match w.writeFile output formattedContent with
        | .error msg => some { err := some (.writingFile msg), effects := [.create output] }
        | .ok _ =>
          some { err := none, effects := [.create output, .write output formattedContent] }

/-! ## Descriptions used by the statements -/

/-- The methods an embedded reference contributes: the method list of its
descriptor when its resolution returns one, nothing when it returns an error. -/
def embeddedMethods : Option (Except Error InterfaceData) → List MethodData
  | some (.ok embeddedData) => embeddedData.Methods
  | _ => []

/-- The imports an embedded reference contributes: the import list of its
descriptor when its resolution returns one, nothing when it returns an error. -/
def embeddedImports : Option (Except Error InterfaceData) → List ImportData
  | some (.ok embeddedData) => embeddedData.Imports
  | _ => []

/-- The state in which line 196 is reached in the file that declares the
interface, when no earlier file of the package declares it. -/
def stateAt (pkg : Package) (interfacePackage interfaceName : String) (fileAst : File) :
    ResolveState :=
  { initialState pkg interfacePackage interfaceName with
    existingImports := updateAliases fileAst (loadExistingImports pkg) }

/-- The explicitly named methods of the interface, in source order, as
lines 207-250 build them. -/
def ownMethods (tp : TypeProcessor) (interfacePackage : String) (ifaceTypeSpec : TypeSpec)
    (st : ResolveState) : List MethodData :=
  (collectMethods tp st.existingImports interfacePackage ifaceTypeSpec.methods st.newImports).1

/-- The entries of `newImports` when the embedded references are resolved: the
module itself and the imports of the module, with the `Used` flags set so far. -/
def ownImports (tp : TypeProcessor) (interfacePackage : String) (ifaceTypeSpec : TypeSpec)
    (st : ResolveState) : List ImportData :=
  (tp.correctType (.ident ifaceTypeSpec.Name) st.existingImports
    (collectMethods tp st.existingImports interfacePackage ifaceTypeSpec.methods
      st.newImports).2 interfacePackage).2

/-- The embedded references of the interface, in the order of their discovery. -/
def ownQueue (tp : TypeProcessor) (interfacePackage : String) (ifaceTypeSpec : TypeSpec)
    (st : ResolveState) : List (String × String) :=
  embeddedQueue st.existingImports (ownImports tp interfacePackage ifaceTypeSpec st)
    interfacePackage ifaceTypeSpec.methods

/-- The qualified name of the interface (lines 251-256). -/
def ownImplementationType (tp : TypeProcessor) (interfacePackage : String)
    (ifaceTypeSpec : TypeSpec) (st : ResolveState) : String :=
  (tp.correctType (.ident ifaceTypeSpec.Name) st.existingImports
    (collectMethods tp st.existingImports interfacePackage ifaceTypeSpec.methods
      st.newImports).2 interfacePackage).1

/-- The merged descriptor: the own imports and the own methods of the
interface, each followed by what the embedded references contribute, in the
order of their discovery; `resolve` is the resolution of an embedded reference. -/
def mergedDescriptor (resolve : String → String → Option (Except Error InterfaceData))
    (tp : TypeProcessor) (interfacePackage interfaceName pkgName : String)
    (ifaceTypeSpec : TypeSpec) (st : ResolveState) : InterfaceData :=
  { InterfacePackage := interfacePackage
    InterfaceName := interfaceName
    Imports := ownImports tp interfacePackage ifaceTypeSpec st ++
      (ownQueue tp interfacePackage ifaceTypeSpec st).flatMap
        (fun q => embeddedImports (resolve q.1 q.2))
    Methods := ownMethods tp interfacePackage ifaceTypeSpec st ++
      (ownQueue tp interfacePackage ifaceTypeSpec st).flatMap
        (fun q => embeddedMethods (resolve q.1 q.2))
    ImplementationType := ownImplementationType tp interfacePackage ifaceTypeSpec st
    OriginalPackageName := pkgName }

/-- The number of parameters (or of results) that a field list declares: a
field with names declares one for each name, a field without a name one. -/
def declaredCount (fields : List Field) : Nat :=
  (fields.map (fun f => if f.Names.length = 0 then 1 else f.Names.length)).sum

/-- Strings joined with a separator between neighbours. -/
def joinWith (sep : String) : List String → String
  | [] => ""
  | [s] => s
  | s :: t :: rest => s ++ sep ++ joinWith sep (t :: rest)

/-- Strings written one after the other. -/
def concatStrings : List String → String
  | [] => ""
  | s :: rest => s ++ concatStrings rest

/-- The arguments `arg0`, ..., `arg(n-1)`, in order. -/
def packedArguments (n : Nat) : List String :=
  (List.range n).map (fun i => "arg" ++ toString i)

/-- The parameters of the wrapper: `arg0` with the first parameter type, `arg1`
with the second, and so on. -/
def typedParameters (params : List String) : List String :=
  params.enum.map (fun p => "arg" ++ toString p.1 ++ " " ++ p.2)

/-- The arguments of the call of the implementation: the element of `args`
with each index, asserted to have the parameter type with that index. -/
def assertedArguments (params : List String) : List String :=
  params.enum.map (fun p => "args[" ++ toString p.1 ++ "].(" ++ p.2 ++ ")")

/-- The variables `res0`, `res1`, ... that receive the results of the
implementation, one for each declared return. -/
def resultNames (rets : List String) : List String :=
  rets.enum.map (fun p => "res" ++ toString p.1)

/-- For each declared return type, in order, the cast of the result with the
same index to that type. -/
def castResults (rets : List String) : List String :=
  rets.enum.map (fun p => "proxygenCaster.Cast[" ++ p.2 ++ "](rets[" ++ toString p.1 ++ "])")

/-! ## The resolution as the spec describes it (section 4.2)

These definitions follow the words of the spec and do not use the functions of
`getInterfaceData`; the statements compare the two. -/

/-- Follows the spec (step 4): the module path an import spec names, which is
its path literal without the double quotes. -/
def namedPath (t : ImportSpec) : String :=
  String.mk (t.PathValue.data.filter (fun c => !(c == '"')))

/-- Follows the spec (steps 1 and 4): the alias as authored, among the given specs
of imports, for a module path: the name of the last spec that has a name and
names the path, and `none` when no spec does. -/
def lastAlias (specs : List ImportSpec) (path : String) : Option String :=
  (specs.filterMap (fun t => if namedPath t == path then t.Name else none)).getLast?

/-- Follows the spec (steps 1 and 4): the alias the declaring file authors for
a module path, empty when it authors none. -/
def authoredAlias (fileAst : File) (path : String) : String :=
  (lastAlias fileAst.Imports path).getD ""

/-- Follows the spec (step 1): `existingImports`, the import table of the module
with the aliases as authored in the declaring file. -/
def declaredImports (pkg : Package) (fileAst : File) : List ImportData :=
  pkg.Imports.map (fun imp =>
    { Path := imp.PkgPath
      Name := imp.Name
      Alias := authoredAlias fileAst imp.PkgPath
      Used := false })

/-- Follows the spec (step 7): the rendered form of an import in the declaring
file, which is its authored alias, or its name when there is no alias. -/
def localName (fileAst : File) (imp : PackageImport) : String :=
  if authoredAlias fileAst imp.PkgPath = "" then imp.Name
  else authoredAlias fileAst imp.PkgPath

/-- Follows the spec (step 7): the origin module of a qualifier, which is the
first import of the module whose rendered form is the qualifier. -/
def qualifiedModule (pkg : Package) (fileAst : File) (x : String) : Option String :=
  (pkg.Imports.find? (fun imp => localName fileAst imp == x)).map (fun imp => imp.PkgPath)

mutual
/-- The type names that occur in an expression, from left to right: a bare
identifier `(none, name)`, a qualified reference `(some qualifier, name)`. -/
def typeNames : Expr → List (Option String × String)
  | .ident name => [(none, name)]
  | .selector x sel => [(some x, sel)]
  | .other _ children => typeNamesOfList children
/-- The type names that occur in a list of expressions. -/
def typeNamesOfList : List Expr → List (Option String × String)
  | [] => []
  | e :: es => typeNames e ++ typeNamesOfList es
end

/-- Follows the spec (step 7): the type names of an embedded entry of a method
list (an entry with no method name); a named entry has none. -/
def entryTypeNames (m : InterfaceField) : List (Option String × String) :=
  match m.Names, m.Typ with
  | [], .expr e => typeNames e
  | [], .func t =>
    ((t.Params ++ t.Results).filter (fun f => f.Names.isEmpty)).flatMap
      (fun f => typeNames f.Typ)
  | _ :: _, _ => []

/-- Follows the spec (step 7): the interface a type name refers to: a bare
identifier denotes an interface of the same module, a qualified reference one
of the origin module of its qualifier, when the qualifier has one. -/
def referenceOf (pkg : Package) (fileAst : File) (interfacePackage : String)
    (tn : Option String × String) : Option (String × String) :=
  match tn.1 with
  | none => some (interfacePackage, tn.2)
  | some x => (qualifiedModule pkg fileAst x).map (fun path => (path, tn.2))

/-- Follows the spec (step 7): the embedded references of an interface body, in
the order of their discovery. -/
def embeddedReferences (pkg : Package) (fileAst : File) (interfacePackage : String)
    (methods : List InterfaceField) : List (String × String) :=
  (methods.flatMap entryTypeNames).filterMap (referenceOf pkg fileAst interfacePackage)

/-- Follows the spec (step 2): `newImports` before any entry is used: an entry
for the module itself, then one for each import of the module, entry `i`
under the alias made of the module name, the interface name and `i`. -/
def ownEntries (pkg : Package) (interfacePackage interfaceName : String) : List ImportData :=
  (({ PkgPath := interfacePackage, Name := pkg.Name } : PackageImport) :: pkg.Imports).enum.map
    (fun e =>
      { Path := e.2.PkgPath
        Name := e.2.Name
        Alias := "import" ++ pkg.Name ++ interfaceName ++ toString e.1
        Used := false })

/-- What identifies an import entry: its path, its name and its alias. -/
def entryKey (imp : ImportData) : String × String × String :=
  (imp.Path, imp.Name, imp.Alias)

/-- Follows the spec (step 5): `s` is the qualification of the type of the field
`f` against `existingImports` and a table with the entries of `table`, some of
them used. -/
def typeMatches (tp : TypeProcessor) (existingImports table : List ImportData)
    (interfacePackage : String) (f : Field) (s : String) : Prop :=
  ∃ N : List ImportData, N.map entryKey = table.map entryKey ∧
    s = tp.render f.Typ existingImports N interfacePackage

/-- Follows the spec (step 5): `method` is the signature collected for the named
entry `m`: its name is the first name of the entry and, when no field of the
entry declares several names, its parameter and return types are the
qualifications of the types of the parameter and result fields, in order. -/
def methodMatches (tp : TypeProcessor) (existingImports table : List ImportData)
    (interfacePackage : String) (m : InterfaceField) (method : MethodData) : Prop :=
  m.Names.head? = some method.Name ∧
  match m.Typ with
  | .func t =>
    (∀ f ∈ t.Params ++ t.Results, f.Names.length ≤ 1) →
      List.Forall₂ (typeMatches tp existingImports table interfacePackage) t.Params
        method.Params ∧
      List.Forall₂ (typeMatches tp existingImports table interfacePackage) t.Results
        method.Rets
  | .expr _ => method.Params = [] ∧ method.Rets = []

/-- The entries of an import list that are rendered into the import block (the
used ones) and have the given path. -/
def emittedFor (path : String) (imports : List ImportData) : List ImportData :=
  imports.filter (fun imp => imp.Used && imp.Path == path)

/-! ## A type qualifier and example modules -/

/-- The upper-case letters of the ASCII and Latin-1 blocks of Unicode. -/
def upperLetter (c : Char) : Bool :=
  c.isUpper || (0xC0 ≤ c.val.toNat && c.val.toNat ≤ 0xDE && c.val.toNat != 0xD7)

mutual
/-- Modelled from the spec: the TypeQualifier of section 4.3 (`correctType`), whose
source file is not available.  A bare exported identifier is qualified by the
alias of the interface module in `newImports`; a qualified name has its
qualifier resolved through `existingImports` and replaced by the alias of that
module in `newImports`; other leaves are unchanged; a composite keeps its shape
around its qualified parts.  The result is the rendered expression and the
indices of the entries of `newImports` it references. -/
def specQualify (existingImports newImports : List ImportData) (interfacePackage : String) :
    Expr → String × List Nat
  | .ident name =>
    if IsExported upperLetter name then
      match newImports.findIdx? (fun n => n.Path = interfacePackage) with
      | some i => ((newImports.getD i default).Alias ++ "." ++ name, [i])
      | none => (name, [])
    else (name, [])
  | .selector x sel =>
    match existingImports.find? (fun i => i.Selector = x) with
    | some imp =>
      match newImports.findIdx? (fun n => n.Path = imp.Path) with
      | some i => ((newImports.getD i default).Alias ++ "." ++ sel, [i])
      | none => (x ++ "." ++ sel, [])
    | none => (x ++ "." ++ sel, [])
  | .other kind children =>
    let rs := specQualifyList existingImports newImports interfacePackage children
    (kind ++ String.intercalate ", " rs.1, rs.2)
/-- Modelled from the spec: the TypeQualifier on the parts of a composite. -/
def specQualifyList (existingImports newImports : List ImportData) (interfacePackage : String) :
    List Expr → List String × List Nat
  | [] => ([], [])
  | e :: es =>
    let r := specQualify existingImports newImports interfacePackage e
    let rs := specQualifyList existingImports newImports interfacePackage es
    (r.1 :: rs.1, r.2 ++ rs.2)
end

/-- Modelled from the spec: the type processor that qualifies with `specQualify`. -/
def specTypeProcessor : TypeProcessor :=
  { render := fun e existingImports newImports interfacePackage =>
      (specQualify existingImports newImports interfacePackage e).1
    uses := fun e existingImports newImports interfacePackage i =>
      (specQualify existingImports newImports interfacePackage e).2.contains i }

/-- A world over a list of modules: `Load` returns the modules with the
requested path, the upper-case letters are those of `upperLetter`, the type
processor is `specTypeProcessor`, the formatter returns its input, and files
can be created and written. -/
def worldOf (pkgs : List Package) : World :=
  { IsUpper := upperLetter
    Load := fun pkgPath => .ok (pkgs.filter (fun p => p.PkgPath = pkgPath))
    NewTypeProcessor := fun _ _ => .ok specTypeProcessor
    formatSource := fun src => .ok src
    createFile := fun _ => .ok ()
    writeFile := fun _ _ => .ok () }

/-- A method `name(p string)` with the given result types. -/
def stringMethod (name : String) (results : List Expr) : InterfaceField :=
  { Names := [name]
    Typ := .func
      { Params := [{ Names := ["p"], Typ := .ident "string" }]
        Results := results.map (fun r => { Names := [], Typ := r }) } }

/-- An embedded element of an interface. -/
def embedded (e : Expr) : InterfaceField :=
  { Names := [], Typ := .expr e }

/-- In Go: `type Greeter interface { Greet(p string) string }` (Scenario A). -/
def greeterSpec : TypeSpec :=
  { Name := "Greeter", Typ := .interfaceType [stringMethod "Greet" [.ident "string"]] }

/-- Module `example.com/a`: `type Config struct`, `type hidden interface` and
`Greeter`. -/
def moduleA : Package :=
  { PkgPath := "example.com/a"
    Name := "a"
    Imports := []
    Syntax :=
      [{ Filename := "a.go"
         Imports := []
         Types :=
           [{ Name := "Config", Typ := .otherType },
            { Name := "hidden", Typ := .interfaceType [stringMethod "Peek" []] },
            greeterSpec] }] }

/-- In Go: `type Logger interface { a.Greeter; Log(p string) }` (Scenario B). -/
def loggerSpec : TypeSpec :=
  { Name := "Logger"
    Typ := .interfaceType [embedded (.selector "a" "Greeter"), stringMethod "Log" []] }

/-- In Go: `type Auditor interface { a.Greeter; Audit(m a.Message) }`. -/
def auditorSpec : TypeSpec :=
  { Name := "Auditor"
    Typ := .interfaceType
      [embedded (.selector "a" "Greeter"),
       { Names := ["Audit"]
         Typ := .func
           { Params := [{ Names := ["m"], Typ := .selector "a" "Message" }], Results := [] } }] }

/-- In Go: `type Service interface { c.Missing; a.Greeter; Serve(p string) }`. -/
def serviceSpec : TypeSpec :=
  { Name := "Service"
    Typ := .interfaceType
      ([] ++ embedded (.selector "c" "Missing") ::
        [embedded (.selector "a" "Greeter"), stringMethod "Serve" []]) }

/-- The file of module `example.com/b`: it imports `example.com/a` and
`example.com/c` and declares `Logger`, `Auditor` and `Service`. -/
def fileB : File :=
  { Filename := "b.go"
    Imports :=
      [{ Name := none, PathValue := "\"example.com/a\"" },
       { Name := none, PathValue := "\"example.com/c\"" }]
    Types := [loggerSpec, auditorSpec, serviceSpec] }

/-- Module `example.com/b`.  No module `example.com/c` can be loaded. -/
def moduleB : Package :=
  { PkgPath := "example.com/b"
    Name := "b"
    Imports :=
      [{ PkgPath := "example.com/a", Name := "a" }, { PkgPath := "example.com/c", Name := "c" }]
    Syntax := [] ++ fileB :: [] }

/-- Module `example.com/p`: `Top` embeds `Left` and `Right`, which both embed
`Base`, whose method is `Run(p string)`. -/
def moduleP : Package :=
  { PkgPath := "example.com/p"
    Name := "p"
    Imports := []
    Syntax :=
      [{ Filename := "p.go"
         Imports := []
         Types :=
           [{ Name := "Base", Typ := .interfaceType [stringMethod "Run" []] },
            { Name := "Left", Typ := .interfaceType [embedded (.ident "Base")] },
            { Name := "Right", Typ := .interfaceType [embedded (.ident "Base")] },
            { Name := "Top",
              Typ := .interfaceType [embedded (.ident "Left"), embedded (.ident "Right")] }] }] }

/-- The parameter list of `Add(a, b int) int`: one field with two names. -/
def addParams : List Field :=
  [{ Names := ["a", "b"], Typ := .ident "int" }]

/-- Module `example.com/calc`: `Calc` declares `Add(a, b int) int` and
`Count() (int, error)` (Scenario C). -/
def moduleCalc : Package :=
  { PkgPath := "example.com/calc"
    Name := "calc"
    Imports := []
    Syntax :=
      [{ Filename := "calc.go"
         Imports := []
         Types :=
           [{ Name := "Calc",
              Typ := .interfaceType
                [{ Names := ["Add"]
                   Typ := .func
                     { Params := addParams
                       Results := [{ Names := [], Typ := .ident "int" }] } },
                 { Names := ["Count"]
                   Typ := .func
                     { Params := []
                       Results :=
                         [{ Names := [], Typ := .ident "int" },
                          { Names := [], Typ := .ident "error" }] } }] }] }] }

/-- In Go: `type base interface { Flush(p string) }`, an unexported interface. -/
def baseSpec : TypeSpec :=
  { Name := "base", Typ := .interfaceType [stringMethod "Flush" []] }

/-- Module `example.com/e`: `base`, and
`type Store interface { base; error; Save(p string) }`. -/
def moduleE : Package :=
  { PkgPath := "example.com/e"
    Name := "e"
    Imports := []
    Syntax :=
      [{ Filename := "e.go"
         Imports := []
         Types :=
           [baseSpec,
            { Name := "Store",
              Typ := .interfaceType
                [embedded (.ident "base"), embedded (.ident "error"),
                 stringMethod "Save" []] }] }] }

/-- Module `example.com/k`, which imports `example.com/a`: the walk of
`getInterface` finds a type `X` in two files, in `k1.go` as
`type X interface { A(p string); a.Greeter }` and in `k2.go` as
`type X interface { B(p string) }`. -/
def moduleK : Package :=
  { PkgPath := "example.com/k"
    Name := "k"
    Imports := [{ PkgPath := "example.com/a", Name := "a" }]
    Syntax :=
      [{ Filename := "k1.go"
         Imports := [{ Name := none, PathValue := "\"example.com/a\"" }]
         Types :=
           [{ Name := "X",
              Typ := .interfaceType
                [stringMethod "A" [], embedded (.selector "a" "Greeter")] }] },
       { Filename := "k2.go"
         Imports := []
         Types := [{ Name := "X", Typ := .interfaceType [stringMethod "B" []] }] }] }

/-- In Go: `type Host interface { ga.Greeter; Host(p string) }`. -/
def hostSpec : TypeSpec :=
  { Name := "Host"
    Typ := .interfaceType [embedded (.selector "ga" "Greeter"), stringMethod "Host" []] }

/-- The file of module `example.com/g`: it imports `example.com/a` under the
name `ga` and declares `Host`. -/
def fileG : File :=
  { Filename := "g.go"
    Imports := [{ Name := some "ga", PathValue := "\"example.com/a\"" }]
    Types := [hostSpec] }

/-- Module `example.com/g`. -/
def moduleG : Package :=
  { PkgPath := "example.com/g"
    Name := "g"
    Imports := [{ PkgPath := "example.com/a", Name := "a" }]
    Syntax := [] ++ fileG :: [] }

/-- The world of the modules `example.com/a`, `b`, `e`, `k` and `g`. -/
def extendedWorld : World :=
  worldOf [moduleA, moduleB, moduleE, moduleK, moduleG]

/-- The names of the methods of the descriptor returned. -/
def methodNames (r : Option (Except Error InterfaceData)) : List String :=
  match r with
  | some (.ok data) => data.Methods.map (fun m => m.Name)
  | _ => []

/-- The world of the example modules. -/
def exampleWorld : World :=
  worldOf [moduleA, moduleB, moduleP, moduleCalc]

/-- The descriptor returned, when one is returned. -/
def descriptorOf : Option (Except Error InterfaceData) → Option InterfaceData
  | some (.ok data) => some data
  | _ => none

/-- The aliases of the import list of the descriptor returned. -/
def importAliases (r : Option (Except Error InterfaceData)) : List String :=
  match descriptorOf r with
  | some data => data.Imports.map (fun imp => imp.Alias)
  | none => []

/-- The paths of the entries rendered into the import block: the used ones. -/
def emittedPaths (r : Option (Except Error InterfaceData)) : List String :=
  match descriptorOf r with
  | some data => (data.Imports.filter (fun imp => imp.Used)).map (fun imp => imp.Path)
  | none => []

/-- The descriptor of an interface that no file of its module declares. -/
def emptyDescriptor (interfacePackage interfaceName pkgName : String) : InterfaceData :=
  { InterfacePackage := interfacePackage
    InterfaceName := interfaceName
    Imports := []
    Methods := []
    ImplementationType := ""
    OriginalPackageName := pkgName }

/-- The state in which `Logger`, `Auditor` and `Service` are resolved in `fileB`. -/
def stateB (interfaceName : String) : ResolveState :=
  stateAt moduleB "example.com/b" interfaceName fileB

/-- In Go: `type Service interface { a.Greeter; Serve(p string) }`, which is
`Service` without its embedded `c.Missing`. -/
def serviceSpecWithout : TypeSpec :=
  { Name := "Service"
    Typ := .interfaceType
      ([] ++ [embedded (.selector "a" "Greeter"), stringMethod "Serve" []]) }

/-- The parameter types of the methods of the descriptor returned. -/
def methodParams (r : Option (Except Error InterfaceData)) : List (String × List String) :=
  match descriptorOf r with
  | some data => data.Methods.map (fun m => (m.Name, m.Params))
  | none => []

/-- The descriptor of `Logger` of `example.com/b`. -/
def loggerDescriptor : InterfaceData :=
  { InterfacePackage := "example.com/b"
    InterfaceName := "Logger"
    Imports :=
      [{ Path := "example.com/b", Name := "b", Alias := "importbLogger0", Used := true },
       { Path := "example.com/a", Name := "a", Alias := "importbLogger1", Used := false },
       { Path := "example.com/c", Name := "c", Alias := "importbLogger2", Used := false },
       { Path := "example.com/a", Name := "a", Alias := "importaGreeter0", Used := true }]
    Methods :=
      [{ Name := "Log", Params := ["string"], Rets := [] },
       { Name := "Greet", Params := ["string"], Rets := ["string"] }]
    ImplementationType := "importbLogger0.Logger"
    OriginalPackageName := "b" }

/-- The descriptor of `Logger` with no entry used yet. -/
def unusedLoggerDescriptor : InterfaceData :=
  { loggerDescriptor with
    Imports := loggerDescriptor.Imports.map (fun imp => { imp with Used := false }) }

/-- The descriptor of `Host` of `example.com/g`. -/
def hostDescriptor : InterfaceData :=
  { InterfacePackage := "example.com/g"
    InterfaceName := "Host"
    Imports :=
      [{ Path := "example.com/g", Name := "g", Alias := "importgHost0", Used := true },
       { Path := "example.com/a", Name := "a", Alias := "importgHost1", Used := false },
       { Path := "example.com/a", Name := "a", Alias := "importaGreeter0", Used := true }]
    Methods :=
      [{ Name := "Host", Params := ["string"], Rets := [] },
       { Name := "Greet", Params := ["string"], Rets := ["string"] }]
    ImplementationType := "importgHost0.Host"
    OriginalPackageName := "g" }

/-! ## getPackage and the error path of GenerateProxy -/

theorem findPackage_eq_none_iff (pkgPath : String) (pkgs : List Package) :
    findPackage pkgPath pkgs = none ↔ ∀ p ∈ pkgs, p.PkgPath ≠ pkgPath := by
  induction pkgs with
  | nil => simp [findPackage]
  | cons q qs ih =>
    by_cases h : q.PkgPath = pkgPath
    · simp [findPackage, h]
    · simp [findPackage, h, ih]

theorem findPackage_first (pkgPath : String) (pre : List Package) (p : Package)
    (post : List Package) (hpre : ∀ q ∈ pre, q.PkgPath ≠ pkgPath) (hp : p.PkgPath = pkgPath) :
    findPackage pkgPath (pre ++ p :: post) = some p := by
  induction pre with
  | nil => simp [findPackage, hp]
  | cons q qs ih =>
    have hq : q.PkgPath ≠ pkgPath := hpre q (List.mem_cons_self q qs)
    have hqs : ∀ r ∈ qs, r.PkgPath ≠ pkgPath := fun r hr => hpre r (List.mem_cons_of_mem q hr)
    simp [findPackage, hq, ih hqs]

theorem getInterfaceData_of_getPackage_error (w : World) (fuel : Nat)
    (interfacePackage interfaceName : String) (e : Error)
    (h : getPackage w interfacePackage = .error e) :
    getInterfaceData w (fuel + 1) interfacePackage interfaceName = some (.error e) := by
  simp [getInterfaceData, h]

/-- C5: given the load results of the requested path, `getPackage` returns the
package-not-found error exactly when no package of the results has that path,
and returns the first package with that path otherwise; when `getPackage`
fails for the module path of the request, `GenerateProxy` returns that error
and neither creates nor writes a file. -/
theorem getPackage_found_iff (w : World) (pkgPath : String) (pkgs : List Package)
    (hload : w.Load pkgPath = .ok pkgs) :
    (getPackage w pkgPath = .error (.packageNotFound pkgPath) ↔
      ∀ p ∈ pkgs, p.PkgPath ≠ pkgPath) ∧
    (∀ pre p post, pkgs = pre ++ p :: post → (∀ q ∈ pre, q.PkgPath ≠ pkgPath) →
      p.PkgPath = pkgPath → getPackage w pkgPath = .ok p) ∧
    (∀ e fuel interfacePath packageName name output,
      (splitInterfacePath interfacePath).1 = pkgPath → getPackage w pkgPath = .error e →
      GenerateProxy w (fuel + 1) interfacePath packageName name output =
        some { err := some e, effects := [] }) := by
  refine ⟨?_, ?_, ?_⟩
  · constructor
    · intro h
      cases hf : findPackage pkgPath pkgs with
      | none => exact (findPackage_eq_none_iff pkgPath pkgs).1 hf
      | some q => simp [getPackage, hload, hf] at h
    · intro h
      have hf := (findPackage_eq_none_iff pkgPath pkgs).2 h
      simp [getPackage, hload, hf]
  · intro pre p post hsplit hpre hp
    have hf := findPackage_first pkgPath pre p post hpre hp
    simp [getPackage, hload, hsplit, hf]
  · intro e fuel interfacePath packageName name output hpath herr
    have hres := getInterfaceData_of_getPackage_error w fuel pkgPath
      (splitInterfacePath interfacePath).2 e herr
    simp [GenerateProxy, hpath, hres]

/-- Witness of C5: `example.com/missing` is not among the example modules. -/
theorem getPackage_found_iff_witness :
    (getPackage exampleWorld "example.com/missing" =
        .error (.packageNotFound "example.com/missing") ↔
      ∀ p ∈ ([] : List Package), p.PkgPath ≠ "example.com/missing") ∧
    GenerateProxy exampleWorld 1 "example.com/missing.Greeter" "proxies" "GreeterProxy"
        "out.go" =
      some { err := some (.packageNotFound "example.com/missing"), effects := [] } :=
  have h := getPackage_found_iff exampleWorld "example.com/missing" [] rfl
  ⟨h.1, h.2.2 (.packageNotFound "example.com/missing") 0 "example.com/missing.Greeter"
    "proxies" "GreeterProxy" "out.go" (by decide) (h.1.2 (by simp))⟩

/-! ## The dotted interface path -/

theorem stringsSplit_ne_nil (sep : Char) (cs : List Char) : stringsSplit sep cs ≠ [] := by
  cases cs with
  | nil => simp [stringsSplit]
  | cons c cs =>
    by_cases h : c = sep
    · simp [stringsSplit, h]
    · cases hs : stringsSplit sep cs <;> simp [stringsSplit, h, hs]

theorem stringsSplit_of_not_mem (sep : Char) (cs : List Char) (h : sep ∉ cs) :
    stringsSplit sep cs = [cs] := by
  induction cs with
  | nil => simp [stringsSplit]
  | cons c cs ih =>
    have hc : c ≠ sep := fun hc => h (by simp [hc])
    have hcs : sep ∉ cs := fun hm => h (List.mem_cons_of_mem c hm)
    simp [stringsSplit, hc, ih hcs]

theorem stringsSplit_append (sep : Char) (p n : List Char) (h : sep ∉ n) :
    stringsSplit sep (p ++ sep :: n) = stringsSplit sep p ++ [n] := by
  induction p with
  | nil => simp [stringsSplit, stringsSplit_of_not_mem sep n h]
  | cons c p ih =>
    by_cases hc : c = sep
    · simp [stringsSplit, hc] at ih ⊢
      exact ih
    · cases hs : stringsSplit sep p with
      | nil => exact absurd hs (stringsSplit_ne_nil sep p)
      | cons s ss => simp [stringsSplit, hc, ih, hs]

theorem stringsJoin_stringsSplit (sep : Char) (p : List Char) :
    stringsJoin [sep] (stringsSplit sep p) = p := by
  induction p with
  | nil => simp [stringsSplit, stringsJoin]
  | cons c p ih =>
    by_cases hc : c = sep
    · cases hs : stringsSplit sep p with
      | nil => exact absurd hs (stringsSplit_ne_nil sep p)
      | cons t rest =>
        rw [hs] at ih
        simp [stringsSplit, hc, hs, stringsJoin, ih]
    · cases hs : stringsSplit sep p with
      | nil => exact absurd hs (stringsSplit_ne_nil sep p)
      | cons s ss =>
        rw [hs] at ih
        cases ss with
        | nil =>
          simp [stringsJoin] at ih
          simp [stringsSplit, hc, hs, stringsJoin, ih]
        | cons t r =>
          simp [stringsJoin] at ih
          simp [stringsSplit, hc, hs, stringsJoin, ih]

theorem exists_last_separator (sep : Char) (cs : List Char) (h : sep ∈ cs) :
    ∃ p n, cs = p ++ sep :: n ∧ sep ∉ n := by
  induction cs with
  | nil => simp at h
  | cons c cs ih =>
    by_cases hm : sep ∈ cs
    · obtain ⟨p, n, hpn, hn⟩ := ih hm
      exact ⟨c :: p, n, by simp [hpn], hn⟩
    · have hc : sep = c := by
        rcases List.mem_cons.1 h with h1 | h1
        · exact h1
        · exact absurd h1 hm
      exact ⟨[], cs, by simp [hc], hm⟩

theorem splitInterfacePath_append (p n : String) (h : '.' ∉ n.data) :
    splitInterfacePath (p ++ "." ++ n) = (p, n) := by
  have hdata : (p ++ "." ++ n).data = p.data ++ '.' :: n.data := by
    simp [String.data_append]
  have hne := stringsSplit_ne_nil '.' p.data
  simp only [splitInterfacePath, hdata, stringsSplit_append '.' p.data n.data h]
  rw [List.dropLast_concat, List.getLastD_concat, stringsJoin_stringsSplit]

/-- C10: a path `p.n` whose last part `n` has no dot is split into the module
path `p` and the interface name `n`; for every path with a dot, the module
path, a dot and the interface name give the path back and the interface name
has no dot; a path without a dot has the empty module path and is the
interface name. -/
theorem splitInterfacePath_spec (interfacePath : String) :
    (∀ p n : String, '.' ∉ n.data → interfacePath = p ++ "." ++ n →
      splitInterfacePath interfacePath = (p, n)) ∧
    ('.' ∈ interfacePath.data →
      (splitInterfacePath interfacePath).1 ++ "." ++ (splitInterfacePath interfacePath).2 =
        interfacePath ∧
      '.' ∉ (splitInterfacePath interfacePath).2.data) ∧
    ('.' ∉ interfacePath.data → splitInterfacePath interfacePath = ("", interfacePath)) := by
  refine ⟨?_, ?_, ?_⟩
  · intro p n hn hp
    rw [hp]
    exact splitInterfacePath_append p n hn
  · intro hdot
    obtain ⟨p, n, hpn, hn⟩ := exists_last_separator '.' interfacePath.data hdot
    have heq : interfacePath = String.mk p ++ "." ++ String.mk n := by
      apply String.ext
      simp [String.data_append, hpn]
    have hsplit := splitInterfacePath_append (String.mk p) (String.mk n) hn
    rw [← heq] at hsplit
    rw [hsplit]
    exact ⟨heq.symm, hn⟩
  · intro hdot
    simp [splitInterfacePath, stringsSplit_of_not_mem '.' interfacePath.data hdot, stringsJoin]

/-- Witness of C10: the last part of `example.com/a.Greeter` is `Greeter`. -/
theorem splitInterfacePath_spec_witness :
    splitInterfacePath "example.com/a.Greeter" = ("example.com/a", "Greeter") ∧
    splitInterfacePath "Greeter" = ("", "Greeter") :=
  ⟨(splitInterfacePath_spec "example.com/a.Greeter").1 "example.com/a" "Greeter"
      (by decide) (by decide),
    (splitInterfacePath_spec "Greeter").2.2 (by decide)⟩

/-! ## The wrapper that ProxyTemplate renders -/

theorem templateRange_index (before after : String) (i : Nat) (xs : List String) :
    templateRange (fun idx (_ : String) => before ++ toString idx ++ after) i xs =
      concatStrings ((List.range' i xs.length).map
        (fun j => before ++ toString j ++ after)) := by
  induction xs generalizing i with
  | nil => simp [templateRange, concatStrings]
  | cons x xs ih =>
    simp [templateRange, concatStrings, List.range'_succ, ih (i + 1)]

theorem templateRange_separated (sep : String) (f : String → Nat → String) (i : Nat)
    (xs : List String) :
    templateRange (fun idx x => if idx ≠ 0 then sep ++ f x idx else f x idx) (i + 1) xs =
      concatStrings ((xs.enumFrom (i + 1)).map (fun p => sep ++ f p.2 p.1)) := by
  induction xs generalizing i with
  | nil => simp [templateRange, concatStrings]
  | cons x xs ih =>
    simp only [templateRange, List.enumFrom_cons, List.map_cons, concatStrings]
    rw [ih (i + 1)]
    simp

theorem joinWith_cons (sep a : String) (l : List String) :
    joinWith sep (a :: l) = a ++ concatStrings (l.map (fun s => sep ++ s)) := by
  induction l generalizing a with
  | nil => simp [joinWith, concatStrings]
  | cons b l ih =>
    simp [joinWith, concatStrings, ih b, String.append_assoc]

theorem templateRange_joinWith (sep : String) (f : String → Nat → String) (xs : List String) :
    templateRange (fun idx x => if idx ≠ 0 then sep ++ f x idx else f x idx) 0 xs =
      joinWith sep (xs.enum.map (fun p => f p.2 p.1)) := by
  cases xs with
  | nil => simp [templateRange, joinWith, List.enum]
  | cons x xs =>
    simp only [templateRange, List.enum, List.enumFrom_cons, List.map_cons, joinWith_cons,
      List.map_map]
    rw [templateRange_separated sep f 0 xs]
    simp [Function.comp_def]

theorem templateRange_enumFrom {α : Type} (body : Nat → α → String) (i : Nat) (xs : List α) :
    templateRange body i xs =
      concatStrings ((xs.enumFrom i).map (fun p => body p.1 p.2)) := by
  induction xs generalizing i with
  | nil => simp [templateRange, concatStrings]
  | cons x xs ih => simp [templateRange, concatStrings, List.enumFrom_cons, ih (i + 1)]

theorem templateRange_map {α : Type} (f : α → String) (i : Nat) (xs : List α) :
    templateRange (fun _ x => f x) i xs = concatStrings (xs.map f) := by
  induction xs generalizing i with
  | nil => simp [templateRange, concatStrings]
  | cons x xs ih => simp [templateRange, concatStrings, ih (i + 1)]

theorem renderSignature_eq (name : String) (method : MethodData) :
    renderSignature name method =
      "\n\nfunc (this *" ++ name ++ ") " ++ method.Name ++ "(" ++
      (if method.Params.length > 0 then
        concatStrings ((typedParameters method.Params).map (fun a => "\n   " ++ a ++ ",")) ++
          "\n"
       else "") ++
      ") " ++
      (if method.Rets.length = 0 then ""
       else "(" ++ concatStrings (method.Rets.map (fun r => "\n   " ++ r ++ ",")) ++ "\n) ") ++
      "\x7b\n    " := by
  have hparams := templateRange_enumFrom
    (fun (idx : Nat) (param : String) => "\n   arg" ++ toString idx ++ " " ++ param ++ ",") 0
    method.Params
  have hrets := templateRange_map (fun (ret : String) => "\n   " ++ ret ++ ",") 0 method.Rets
  have harg : ∀ r : String, "\n   arg" ++ r = "\n   " ++ ("arg" ++ r) := by
    intro r
    rw [← String.append_assoc]
    rfl
  simp only [renderSignature]
  rw [hparams, hrets]
  by_cases hk : method.Rets.length = 0
  · simp [hk, typedParameters, List.enum, String.append_assoc, Function.comp_def, harg]
  · simp [hk, typedParameters, List.enum, String.append_assoc, Function.comp_def, harg]

theorem renderCallArguments_eq (method : MethodData) :
    renderCallArguments method =
      "(" ++
      (if method.Params.length > 0 then
        concatStrings ((assertedArguments method.Params).map
          (fun a => "\n                   " ++ a ++ ",")) ++ "\n                "
       else "") ++
      ")" := by
  have hparams := templateRange_enumFrom
    (fun (idx : Nat) (param : String) =>
      "\n                   args[" ++ toString idx ++ "].(" ++ param ++ "),") 0 method.Params
  have harg : ∀ r : String,
      "\n                   args[" ++ r = "\n                   " ++ ("args[" ++ r) := by
    intro r
    rw [← String.append_assoc]
    rfl
  simp only [renderCallArguments]
  rw [hparams]
  simp [assertedArguments, List.enum, String.append_assoc, Function.comp_def, harg]

theorem renderContinuation_eq (method : MethodData) :
    renderContinuation method =
      "\n        func(args []interface\x7b\x7d) []interface\x7b\x7d \x7b\n            " ++
      (if method.Rets.length = 0 then ""
       else joinWith ",\n            " (resultNames method.Rets) ++ " := ") ++
      "this.Implementation." ++ method.Name ++ "(" ++
      (if method.Params.length > 0 then
        concatStrings ((assertedArguments method.Params).map
          (fun a => "\n                   " ++ a ++ ",")) ++ "\n                "
       else "") ++
      ")" ++
      "\n        " ++
      "\n            return []interface\x7b\x7d\x7b" ++
      (if method.Rets.length = 0 then ""
       else
        concatStrings ((resultNames method.Rets).map (fun r => "\n                " ++ r ++ ",")) ++
          "\n            ") ++
      "\x7d" ++
      "\n        \x7d,\n    )\n\n    " := by
  have hnames := templateRange_joinWith ",\n            "
    (fun (_ : String) (idx : Nat) => "res" ++ toString idx) method.Rets
  have hbody :
      (fun (idx : Nat) (_ : String) =>
        if idx ≠ 0 then ",\n            res" ++ toString idx else "res" ++ toString idx) =
      (fun (idx : Nat) (_ : String) =>
        if idx ≠ 0 then ",\n            " ++ ("res" ++ toString idx)
        else "res" ++ toString idx) := by
    funext idx _
    have hlit : ",\n            res" = ",\n            " ++ "res" := by decide
    rw [hlit]
    simp only [String.append_assoc]
  have hlist := templateRange_enumFrom
    (fun (idx : Nat) (_ : String) => "\n                res" ++ toString idx ++ ",") 0
    method.Rets
  have hres : ∀ r : String, "\n                res" ++ r = "\n                " ++ ("res" ++ r) := by
    intro r
    rw [← String.append_assoc]
    rfl
  have hempty : "\n            return []interface\x7b\x7d\x7b\x7d" =
      "\n            return []interface\x7b\x7d\x7b" ++ "\x7d" := by decide
  have hclose : "\n            \x7d" = "\n            " ++ "\x7d" := by decide
  simp only [renderContinuation, renderCallArguments_eq]
  rw [hbody, hnames, hlist, hempty, hclose]
  by_cases hk : method.Rets.length = 0
  · simp only [hk, ne_eq, not_true_eq_false, if_false, if_true]
    apply String.ext
    simp [String.data_append]
  · simp only [hk, ne_eq, not_false_eq_true, if_false, if_true]
    apply String.ext
    simp [String.data_append, resultNames, List.enum, String.append_assoc, Function.comp_def,
      hres]

theorem renderProxy_eq (packageName name : String) (data : InterfaceData) :
    renderProxy packageName name data =
      renderHeader packageName name data ++
        concatStrings (data.Methods.map (renderMethod name)) := by
  simp only [renderProxy]
  rw [templateRange_map]

/-- C9: the wrapper of a method with parameters `Params` and returns `Rets`
is its signature, the call of `Apply` (bound to `rets` only when there is a
return), the argument list `arg0, ..., arg(n-1)` in order followed by the
method name, the continuation, and then, when there is a return, one `return`
of the casts of `rets[0], ..., rets[k-1]` to the declared return types in
order, and nothing when there is none.  The signature declares the parameters
`arg0`, ..., `arg(n-1)` with the parameter types and lists the return types;
the continuation calls the method of the implementation with each `args[i]`
asserted to the parameter type `i` and returns the results `res0`, ...,
`res(k-1)` in order; the text of the proxy is the header followed by the
wrappers of the methods of the descriptor, in order. -/
theorem renderMethod_wrapper (name : String) (method : MethodData) :
    renderMethod name method =
      renderSignature name method ++
      (if method.Rets.length = 0 then "this.Interceptors.Apply("
       else "rets := this.Interceptors.Apply(") ++
      ("\n        []interface\x7b\x7d\x7b" ++
        (if method.Params.length > 0 then
          concatStrings ((packedArguments method.Params.length).map
            (fun a => "\n           " ++ a ++ ",")) ++ "\n        "
         else "") ++
        "\x7d,\n        \"" ++ method.Name ++ "\",") ++
      renderContinuation method ++
      ((if method.Rets.length = 0 then ""
        else "return " ++ joinWith ",\n        " (castResults method.Rets)) ++ "\n\x7d") ∧
    (packedArguments method.Params.length).length = method.Params.length ∧
    (∀ i : Nat, i < method.Params.length →
      (packedArguments method.Params.length)[i]? = some ("arg" ++ toString i)) ∧
    (castResults method.Rets).length = method.Rets.length ∧
    (∀ (i : Nat) (ret : String), method.Rets[i]? = some ret →
      (castResults method.Rets)[i]? =
        some ("proxygenCaster.Cast[" ++ ret ++ "](rets[" ++ toString i ++ "])")) ∧
    castResults ["int", "error"] =
      ["proxygenCaster.Cast[int](rets[0])", "proxygenCaster.Cast[error](rets[1])"] ∧
    renderSignature name method =
      "\n\nfunc (this *" ++ name ++ ") " ++ method.Name ++ "(" ++
      (if method.Params.length > 0 then
        concatStrings ((typedParameters method.Params).map (fun a => "\n   " ++ a ++ ",")) ++
          "\n"
       else "") ++
      ") " ++
      (if method.Rets.length = 0 then ""
       else "(" ++ concatStrings (method.Rets.map (fun r => "\n   " ++ r ++ ",")) ++ "\n) ") ++
      "\x7b\n    " ∧
    renderContinuation method =
      "\n        func(args []interface\x7b\x7d) []interface\x7b\x7d \x7b\n            " ++
      (if method.Rets.length = 0 then ""
       else joinWith ",\n            " (resultNames method.Rets) ++ " := ") ++
      "this.Implementation." ++ method.Name ++ "(" ++
      (if method.Params.length > 0 then
        concatStrings ((assertedArguments method.Params).map
          (fun a => "\n                   " ++ a ++ ",")) ++ "\n                "
       else "") ++
      ")" ++
      "\n        " ++
      "\n            return []interface\x7b\x7d\x7b" ++
      (if method.Rets.length = 0 then ""
       else
        concatStrings ((resultNames method.Rets).map (fun r => "\n                " ++ r ++ ",")) ++
          "\n            ") ++
      "\x7d" ++
      "\n        \x7d,\n    )\n\n    " ∧
    (∀ (packageName : String) (data : InterfaceData),
      renderProxy packageName name data =
        renderHeader packageName name data ++
          concatStrings (data.Methods.map (renderMethod name))) := by
  refine ⟨?_, ?_, ?_, ?_, ?_, ?_, renderSignature_eq name method, renderContinuation_eq method,
    fun packageName data => renderProxy_eq packageName name data⟩
  · have hargs := templateRange_index "\n           arg" "," 0 method.Params
    have hrets := templateRange_joinWith ",\n        "
      (fun (ret : String) (idx : Nat) =>
        "proxygenCaster.Cast[" ++ ret ++ "](rets[" ++ toString idx ++ "])")
      method.Rets
    have hbody :
        (fun (idx : Nat) (ret : String) =>
          if idx ≠ 0 then
            ",\n        proxygenCaster.Cast[" ++ ret ++ "](rets[" ++ toString idx ++ "])"
          else "proxygenCaster.Cast[" ++ ret ++ "](rets[" ++ toString idx ++ "])") =
        (fun (idx : Nat) (ret : String) =>
          if idx ≠ 0 then
            ",\n        " ++ ("proxygenCaster.Cast[" ++ ret ++ "](rets[" ++ toString idx ++ "])")
          else "proxygenCaster.Cast[" ++ ret ++ "](rets[" ++ toString idx ++ "])") := by
      funext idx ret
      have hlit : ",\n        proxygenCaster.Cast[" = ",\n        " ++ "proxygenCaster.Cast[" := by
        decide
      rw [hlit]
      simp only [String.append_assoc]
    simp only [renderMethod, renderApply, renderArguments, renderReturn]
    rw [hargs, hbody, hrets]
    have harg : ∀ r : String, "\n           arg" ++ r = "\n           " ++ ("arg" ++ r) := by
      intro r
      rw [← String.append_assoc]
      rfl
    by_cases hk : method.Rets.length = 0
    · simp [hk, packedArguments, List.range_eq_range', String.append_assoc, castResults,
        Function.comp_def, harg]
    · simp [hk, packedArguments, List.range_eq_range', String.append_assoc, castResults,
        Function.comp_def, harg]
  · simp [packedArguments]
  · intro i hi
    simp [packedArguments, hi]
  · simp [castResults]
  · intro i ret hret
    simp [castResults, List.getElem?_enum, hret]
  · decide

/-! ## The merge of the embedded interfaces -/

theorem mergeEmbedded_of_returns (resolve : String → String → Option (Except Error InterfaceData))
    (queue : List (String × String)) (data : InterfaceData)
    (h : ∀ q ∈ queue, (resolve q.1 q.2).isSome = true) :
    mergeEmbedded resolve queue data =
      some { data with
        Imports := data.Imports ++ queue.flatMap (fun q => embeddedImports (resolve q.1 q.2))
        Methods := data.Methods ++ queue.flatMap (fun q => embeddedMethods (resolve q.1 q.2)) } := by
  induction queue generalizing data with
  | nil => simp [mergeEmbedded]
  | cons q qs ih =>
    have hq := h q (List.mem_cons_self q qs)
    have hqs : ∀ r ∈ qs, (resolve r.1 r.2).isSome = true :=
      fun r hr => h r (List.mem_cons_of_mem q hr)
    cases hr : resolve q.1 q.2 with
    | none => simp [hr] at hq
    | some r =>
      cases r with
      | error e =>
        simp [mergeEmbedded, hr, ih _ hqs, embeddedImports, embeddedMethods, List.flatMap_cons]
      | ok e =>
        simp [mergeEmbedded, hr, ih _ hqs, embeddedImports, embeddedMethods, List.flatMap_cons,
          List.append_assoc]

theorem mergeEmbedded_returns (resolve : String → String → Option (Except Error InterfaceData))
    (queue : List (String × String)) (data d : InterfaceData)
    (h : mergeEmbedded resolve queue data = some d) :
    ∀ q ∈ queue, (resolve q.1 q.2).isSome = true := by
  induction queue generalizing data with
  | nil => simp
  | cons q qs ih =>
    intro r hr
    cases hq : resolve q.1 q.2 with
    | none => simp [mergeEmbedded, hq] at h
    | some x =>
      rcases List.mem_cons.1 hr with h1 | h1
      · subst h1
        simp [hq]
      · cases x with
        | error e =>
          simp only [mergeEmbedded, hq] at h
          exact ih _ h r h1
        | ok e =>
          simp only [mergeEmbedded, hq] at h
          exact ih _ h r h1

theorem mergeEmbedded_eq (resolve : String → String → Option (Except Error InterfaceData))
    (queue : List (String × String)) (data d : InterfaceData)
    (h : mergeEmbedded resolve queue data = some d) :
    d = { data with
      Imports := data.Imports ++ queue.flatMap (fun q => embeddedImports (resolve q.1 q.2))
      Methods := data.Methods ++ queue.flatMap (fun q => embeddedMethods (resolve q.1 q.2)) } := by
  have hall := mergeEmbedded_returns resolve queue data d h
  rw [mergeEmbedded_of_returns resolve queue data hall] at h
  exact (Option.some.inj h).symm

theorem flatMap_embeddedImports_of_fail
    (resolve : String → String → Option (Except Error InterfaceData))
    (queue : List (String × String))
    (h : ∀ q ∈ queue, ∃ e, resolve q.1 q.2 = some (.error e)) :
    queue.flatMap (fun q => embeddedImports (resolve q.1 q.2)) = [] := by
  rw [List.flatMap_eq_nil_iff]
  intro q hq
  obtain ⟨e, he⟩ := h q hq
  simp [he, embeddedImports]

theorem flatMap_embeddedMethods_of_fail
    (resolve : String → String → Option (Except Error InterfaceData))
    (queue : List (String × String))
    (h : ∀ q ∈ queue, ∃ e, resolve q.1 q.2 = some (.error e)) :
    queue.flatMap (fun q => embeddedMethods (resolve q.1 q.2)) = [] := by
  rw [List.flatMap_eq_nil_iff]
  intro q hq
  obtain ⟨e, he⟩ := h q hq
  simp [he, embeddedMethods]

/-! ## The loop over the files -/

theorem resolveFiles_notFound (w : World)
    (resolve : String → String → Option (Except Error InterfaceData)) (pkg : Package)
    (interfacePackage interfaceName : String) (files : List File) (st : ResolveState)
    (h : ∀ f ∈ files, getInterface w f interfaceName = .error (.interfaceNotFound interfaceName)) :
    resolveFiles w resolve pkg interfacePackage interfaceName files st = some (.ok st.data) := by
  induction files with
  | nil => simp [resolveFiles]
  | cons f fs ih =>
    have hf := h f (List.mem_cons_self f fs)
    have hfs : ∀ g ∈ fs,
        getInterface w g interfaceName = .error (.interfaceNotFound interfaceName) :=
      fun g hg => h g (List.mem_cons_of_mem f hg)
    simp [resolveFiles, hf, ih hfs]

theorem resolveFiles_declaring (w : World)
    (resolve : String → String → Option (Except Error InterfaceData)) (pkg : Package)
    (interfacePackage interfaceName : String) (pre : List File) (fileAst : File)
    (post : List File) (ifaceTypeSpec : TypeSpec) (tp : TypeProcessor) (st : ResolveState)
    (hpre : ∀ f ∈ pre, getInterface w f interfaceName = .error (.interfaceNotFound interfaceName))
    (hpost : ∀ f ∈ post, getInterface w f interfaceName = .error (.interfaceNotFound interfaceName))
    (hfile : getInterface w fileAst interfaceName = .ok ifaceTypeSpec)
    (htp : w.NewTypeProcessor pkg fileAst.Filename = .ok tp) :
    resolveFiles w resolve pkg interfacePackage interfaceName (pre ++ fileAst :: post) st =
      (resolveInterface resolve tp interfacePackage ifaceTypeSpec
        { st with existingImports := updateAliases fileAst st.existingImports }).map
        (fun st1 => Except.ok st1.data) := by
  induction pre with
  | nil =>
    simp only [List.nil_append, resolveFiles, hfile, htp]
    cases hri : resolveInterface resolve tp interfacePackage ifaceTypeSpec
        { st with existingImports := updateAliases fileAst st.existingImports } with
    | none => rfl
    | some st1 =>
      simp [resolveFiles_notFound w resolve pkg interfacePackage interfaceName post st1 hpost]
  | cons f fs ih =>
    have hf := hpre f (List.mem_cons_self f fs)
    have hfs : ∀ g ∈ fs,
        getInterface w g interfaceName = .error (.interfaceNotFound interfaceName) :=
      fun g hg => hpre g (List.mem_cons_of_mem f hg)
    simp [resolveFiles, hf, ih hfs]

theorem resolveInterface_eq_merge
    (resolve : String → String → Option (Except Error InterfaceData)) (tp : TypeProcessor)
    (interfacePackage : String) (ifaceTypeSpec : TypeSpec) (st : ResolveState) :
    resolveInterface resolve tp interfacePackage ifaceTypeSpec st =
      (mergeEmbedded resolve (ownQueue tp interfacePackage ifaceTypeSpec st)
        { st.data with
          Imports := ownImports tp interfacePackage ifaceTypeSpec st
          Methods := st.data.Methods ++ ownMethods tp interfacePackage ifaceTypeSpec st
          ImplementationType := ownImplementationType tp interfacePackage ifaceTypeSpec st }).map
        (fun data =>
          { data := data
            existingImports := st.existingImports
            newImports := ownImports tp interfacePackage ifaceTypeSpec st }) := by
  simp only [resolveInterface, ownQueue, ownImports, ownMethods, ownImplementationType]
  cases mergeEmbedded resolve _ _ <;> rfl

theorem getInterfaceData_declaring (w : World) (fuel : Nat)
    (interfacePackage interfaceName : String) (pkg : Package) (pre : List File)
    (fileAst : File) (post : List File) (ifaceTypeSpec : TypeSpec) (tp : TypeProcessor)
    (hpkg : getPackage w interfacePackage = .ok pkg)
    (hfiles : pkg.Syntax = pre ++ fileAst :: post)
    (hpre : ∀ f ∈ pre, getInterface w f interfaceName = .error (.interfaceNotFound interfaceName))
    (hpost : ∀ f ∈ post, getInterface w f interfaceName = .error (.interfaceNotFound interfaceName))
    (hfile : getInterface w fileAst interfaceName = .ok ifaceTypeSpec)
    (htp : w.NewTypeProcessor pkg fileAst.Filename = .ok tp) :
    getInterfaceData w (fuel + 1) interfacePackage interfaceName =
      (mergeEmbedded (getInterfaceData w fuel)
        (ownQueue tp interfacePackage ifaceTypeSpec
          (stateAt pkg interfacePackage interfaceName fileAst))
        { InterfacePackage := interfacePackage
          InterfaceName := interfaceName
          Imports := ownImports tp interfacePackage ifaceTypeSpec
            (stateAt pkg interfacePackage interfaceName fileAst)
          Methods := ownMethods tp interfacePackage ifaceTypeSpec
            (stateAt pkg interfacePackage interfaceName fileAst)
          ImplementationType := ownImplementationType tp interfacePackage ifaceTypeSpec
            (stateAt pkg interfacePackage interfaceName fileAst)
          OriginalPackageName := pkg.Name }).map Except.ok := by
  simp only [getInterfaceData, hpkg, hfiles]
  rw [resolveFiles_declaring w (getInterfaceData w fuel) pkg interfacePackage interfaceName pre
    fileAst post ifaceTypeSpec tp _ hpre hpost hfile htp]
  rw [show ({ initialState pkg interfacePackage interfaceName with
        existingImports := updateAliases fileAst
          (initialState pkg interfacePackage interfaceName).existingImports } : ResolveState) =
      stateAt pkg interfacePackage interfaceName fileAst from rfl]
  rw [resolveInterface_eq_merge]
  simp only [stateAt, initialState, List.nil_append]
  cases mergeEmbedded (getInterfaceData w fuel) _ _ <;> rfl

theorem getInterfaceData_merged (w : World) (fuel : Nat)
    (interfacePackage interfaceName : String) (pkg : Package) (pre : List File)
    (fileAst : File) (post : List File) (ifaceTypeSpec : TypeSpec) (tp : TypeProcessor)
    (d : InterfaceData)
    (hpkg : getPackage w interfacePackage = .ok pkg)
    (hfiles : pkg.Syntax = pre ++ fileAst :: post)
    (hpre : ∀ f ∈ pre, getInterface w f interfaceName = .error (.interfaceNotFound interfaceName))
    (hpost : ∀ f ∈ post, getInterface w f interfaceName = .error (.interfaceNotFound interfaceName))
    (hfile : getInterface w fileAst interfaceName = .ok ifaceTypeSpec)
    (htp : w.NewTypeProcessor pkg fileAst.Filename = .ok tp)
    (hres : getInterfaceData w (fuel + 1) interfacePackage interfaceName = some (.ok d)) :
    d = mergedDescriptor (getInterfaceData w fuel) tp interfacePackage interfaceName pkg.Name
      ifaceTypeSpec (stateAt pkg interfacePackage interfaceName fileAst) := by
  rw [getInterfaceData_declaring w fuel interfacePackage interfaceName pkg pre fileAst post
    ifaceTypeSpec tp hpkg hfiles hpre hpost hfile htp] at hres
  cases hm : mergeEmbedded (getInterfaceData w fuel)
      (ownQueue tp interfacePackage ifaceTypeSpec
        (stateAt pkg interfacePackage interfaceName fileAst))
      { InterfacePackage := interfacePackage
        InterfaceName := interfaceName
        Imports := ownImports tp interfacePackage ifaceTypeSpec
          (stateAt pkg interfacePackage interfaceName fileAst)
        Methods := ownMethods tp interfacePackage ifaceTypeSpec
          (stateAt pkg interfacePackage interfaceName fileAst)
        ImplementationType := ownImplementationType tp interfacePackage ifaceTypeSpec
          (stateAt pkg interfacePackage interfaceName fileAst)
        OriginalPackageName := pkg.Name } with
  | none => simp [hm] at hres
  | some d1 =>
    rw [hm] at hres
    have hd : d1 = d := by simpa using hres
    rw [← hd, mergeEmbedded_eq _ _ _ _ hm]
    rfl

theorem getInterfaceData_of_returns (w : World) (fuel : Nat)
    (interfacePackage interfaceName : String) (pkg : Package) (pre : List File)
    (fileAst : File) (post : List File) (ifaceTypeSpec : TypeSpec) (tp : TypeProcessor)
    (hpkg : getPackage w interfacePackage = .ok pkg)
    (hfiles : pkg.Syntax = pre ++ fileAst :: post)
    (hpre : ∀ f ∈ pre, getInterface w f interfaceName = .error (.interfaceNotFound interfaceName))
    (hpost : ∀ f ∈ post, getInterface w f interfaceName = .error (.interfaceNotFound interfaceName))
    (hfile : getInterface w fileAst interfaceName = .ok ifaceTypeSpec)
    (htp : w.NewTypeProcessor pkg fileAst.Filename = .ok tp)
    (hall : ∀ q ∈ ownQueue tp interfacePackage ifaceTypeSpec
        (stateAt pkg interfacePackage interfaceName fileAst),
      (getInterfaceData w fuel q.1 q.2).isSome = true) :
    getInterfaceData w (fuel + 1) interfacePackage interfaceName =
      some (.ok (mergedDescriptor (getInterfaceData w fuel) tp interfacePackage interfaceName
        pkg.Name ifaceTypeSpec (stateAt pkg interfacePackage interfaceName fileAst))) := by
  rw [getInterfaceData_declaring w fuel interfacePackage interfaceName pkg pre fileAst post
    ifaceTypeSpec tp hpkg hfiles hpre hpost hfile htp]
  rw [mergeEmbedded_of_returns _ _ _ hall]
  rfl

/-! ## The own methods and the own imports -/

theorem collectMethods_names (tp : TypeProcessor) (existingImports : List ImportData)
    (interfacePackage : String) (ms : List InterfaceField) (newImports : List ImportData) :
    (collectMethods tp existingImports interfacePackage ms newImports).1.map (fun m => m.Name) =
      ms.filterMap (fun m => m.Names.head?) := by
  induction ms generalizing newImports with
  | nil => simp [collectMethods]
  | cons m ms ih =>
    cases hn : m.Names with
    | nil => simp [collectMethods, methodOfField, hn, ih]
    | cons name names =>
      cases ht : m.Typ with
      | func t => simp [collectMethods, methodOfField, hn, ht, ih]
      | expr e => simp [collectMethods, methodOfField, hn, ht, ih]

theorem collectMethods_skip (tp : TypeProcessor) (existingImports : List ImportData)
    (interfacePackage : String) (ms1 : List InterfaceField) (f : InterfaceField)
    (ms2 : List InterfaceField) (newImports : List ImportData) (hf : f.Names = []) :
    collectMethods tp existingImports interfacePackage (ms1 ++ f :: ms2) newImports =
      collectMethods tp existingImports interfacePackage (ms1 ++ ms2) newImports := by
  induction ms1 generalizing newImports with
  | nil => simp [collectMethods, methodOfField, hf]
  | cons m ms ih => simp [collectMethods, ih]

theorem embeddedQueue_of_named (existingImports newImports : List ImportData)
    (interfacePackage : String) (ms : List InterfaceField) (h : ∀ m ∈ ms, m.Names ≠ []) :
    embeddedQueue existingImports newImports interfacePackage ms = [] := by
  unfold embeddedQueue
  rw [List.flatMap_eq_nil_iff]
  intro m hm
  have hne : m.Names.length ≠ 0 := by
    intro hl
    exact h m hm (List.length_eq_zero.1 hl)
  simp [inspectField, hne]

theorem markUsed_paths (uses : Nat → Bool) (i : Nat) (l : List ImportData) :
    (markUsed uses i l).map (fun imp => imp.Path) = l.map (fun imp => imp.Path) := by
  induction l generalizing i with
  | nil => rfl
  | cons imp rest ih => simp [markUsed, ih]

theorem correctFields_paths (tp : TypeProcessor) (existingImports : List ImportData)
    (interfacePackage : String) (fs : List Field) (newImports : List ImportData) :
    (correctFields tp existingImports interfacePackage fs newImports).2.map
        (fun imp => imp.Path) =
      newImports.map (fun imp => imp.Path) := by
  induction fs generalizing newImports with
  | nil => rfl
  | cons f fs ih =>
    simp only [correctFields]
    rw [ih]
    exact markUsed_paths _ 0 newImports

theorem collectMethods_paths (tp : TypeProcessor) (existingImports : List ImportData)
    (interfacePackage : String) (ms : List InterfaceField) (newImports : List ImportData) :
    (collectMethods tp existingImports interfacePackage ms newImports).2.map
        (fun imp => imp.Path) =
      newImports.map (fun imp => imp.Path) := by
  induction ms generalizing newImports with
  | nil => rfl
  | cons m ms ih =>
    simp only [collectMethods]
    rw [ih]
    cases hn : m.Names with
    | nil => simp [methodOfField, hn]
    | cons name names =>
      cases ht : m.Typ with
      | func t => simp [methodOfField, hn, ht, correctFields_paths]
      | expr e => simp [methodOfField, hn, ht]

theorem ownImports_paths (tp : TypeProcessor) (interfacePackage : String)
    (ifaceTypeSpec : TypeSpec) (st : ResolveState) :
    (ownImports tp interfacePackage ifaceTypeSpec st).map (fun imp => imp.Path) =
      st.newImports.map (fun imp => imp.Path) := by
  simp only [ownImports, TypeProcessor.correctType]
  rw [markUsed_paths, collectMethods_paths]

theorem aliasImports_paths (pkgName interfaceName : String) (i : Nat) (l : List ImportData) :
    (aliasImports pkgName interfaceName i l).map (fun imp => imp.Path) =
      l.map (fun imp => imp.Path) := by
  induction l generalizing i with
  | nil => rfl
  | cons imp rest ih => simp [aliasImports, ih]

theorem stateAt_paths (pkg : Package) (interfacePackage interfaceName : String)
    (fileAst : File) :
    (stateAt pkg interfacePackage interfaceName fileAst).newImports.map (fun imp => imp.Path) =
      interfacePackage :: pkg.Imports.map (fun imp => imp.PkgPath) := by
  simp [stateAt, initialState, aliasImports_paths, loadNewImports, importEntry,
    Function.comp_def]

/-! ## An embedded reference whose resolution fails -/

/-- C6: let one file of the module declare the interface, let the type
processor be built, let `f` be an embedded element of the interface body such
that the resolution of every reference found in `f` returns an error, and let
the resolutions of the other embedded references return.  Then `resolve`
returns a descriptor, and it is the descriptor that lines 196-301 build for the
interface body without `f`: its imports and its methods are the own ones
followed by those of the references that resolve. -/
theorem getInterfaceData_skips_failed (w : World) (fuel : Nat)
    (interfacePackage interfaceName : String) (pkg : Package) (pre : List File)
    (fileAst : File) (post : List File) (name : String) (ms1 : List InterfaceField)
    (f : InterfaceField) (ms2 : List InterfaceField) (tp : TypeProcessor)
    (hpkg : getPackage w interfacePackage = .ok pkg)
    (hfiles : pkg.Syntax = pre ++ fileAst :: post)
    (hpre : ∀ g ∈ pre, getInterface w g interfaceName = .error (.interfaceNotFound interfaceName))
    (hpost : ∀ g ∈ post, getInterface w g interfaceName = .error (.interfaceNotFound interfaceName))
    (hfile : getInterface w fileAst interfaceName =
      .ok { Name := name, Typ := .interfaceType (ms1 ++ f :: ms2) })
    (htp : w.NewTypeProcessor pkg fileAst.Filename = .ok tp)
    (hunnamed : f.Names = [])
    (hfail : ∀ q ∈ inspectField
        (stateAt pkg interfacePackage interfaceName fileAst).existingImports
        (ownImports tp interfacePackage { Name := name, Typ := .interfaceType (ms1 ++ ms2) }
          (stateAt pkg interfacePackage interfaceName fileAst)) interfacePackage f,
      ∃ e, getInterfaceData w fuel q.1 q.2 = some (.error e))
    (hrest : ∀ q ∈ ownQueue tp interfacePackage
        { Name := name, Typ := .interfaceType (ms1 ++ ms2) }
        (stateAt pkg interfacePackage interfaceName fileAst),
      (getInterfaceData w fuel q.1 q.2).isSome = true) :
    getInterfaceData w (fuel + 1) interfacePackage interfaceName =
      some (.ok (mergedDescriptor (getInterfaceData w fuel) tp interfacePackage interfaceName
        pkg.Name { Name := name, Typ := .interfaceType (ms1 ++ ms2) }
        (stateAt pkg interfacePackage interfaceName fileAst))) ∧
    (resolveInterface (getInterfaceData w fuel) tp interfacePackage
        { Name := name, Typ := .interfaceType (ms1 ++ ms2) }
        (stateAt pkg interfacePackage interfaceName fileAst)).map (fun st1 => st1.data) =
      some (mergedDescriptor (getInterfaceData w fuel) tp interfacePackage interfaceName
        pkg.Name { Name := name, Typ := .interfaceType (ms1 ++ ms2) }
        (stateAt pkg interfacePackage interfaceName fileAst)) := by
  have hown : ownImports tp interfacePackage
      { Name := name, Typ := .interfaceType (ms1 ++ f :: ms2) }
      (stateAt pkg interfacePackage interfaceName fileAst) =
      ownImports tp interfacePackage { Name := name, Typ := .interfaceType (ms1 ++ ms2) }
        (stateAt pkg interfacePackage interfaceName fileAst) := by
    simp only [ownImports, TypeSpec.methods, collectMethods_skip _ _ _ _ _ _ _ hunnamed]
  have hmeth : ownMethods tp interfacePackage
      { Name := name, Typ := .interfaceType (ms1 ++ f :: ms2) }
      (stateAt pkg interfacePackage interfaceName fileAst) =
      ownMethods tp interfacePackage { Name := name, Typ := .interfaceType (ms1 ++ ms2) }
        (stateAt pkg interfacePackage interfaceName fileAst) := by
    simp only [ownMethods, TypeSpec.methods, collectMethods_skip _ _ _ _ _ _ _ hunnamed]
  have himpl : ownImplementationType tp interfacePackage
      { Name := name, Typ := .interfaceType (ms1 ++ f :: ms2) }
      (stateAt pkg interfacePackage interfaceName fileAst) =
      ownImplementationType tp interfacePackage
        { Name := name, Typ := .interfaceType (ms1 ++ ms2) }
        (stateAt pkg interfacePackage interfaceName fileAst) := by
    simp only [ownImplementationType, TypeSpec.methods,
      collectMethods_skip _ _ _ _ _ _ _ hunnamed]
  have hqueue : ownQueue tp interfacePackage
      { Name := name, Typ := .interfaceType (ms1 ++ f :: ms2) }
      (stateAt pkg interfacePackage interfaceName fileAst) =
      embeddedQueue (stateAt pkg interfacePackage interfaceName fileAst).existingImports
          (ownImports tp interfacePackage { Name := name, Typ := .interfaceType (ms1 ++ ms2) }
            (stateAt pkg interfacePackage interfaceName fileAst)) interfacePackage ms1 ++
        (inspectField (stateAt pkg interfacePackage interfaceName fileAst).existingImports
          (ownImports tp interfacePackage { Name := name, Typ := .interfaceType (ms1 ++ ms2) }
            (stateAt pkg interfacePackage interfaceName fileAst)) interfacePackage f ++
        embeddedQueue (stateAt pkg interfacePackage interfaceName fileAst).existingImports
          (ownImports tp interfacePackage { Name := name, Typ := .interfaceType (ms1 ++ ms2) }
            (stateAt pkg interfacePackage interfaceName fileAst)) interfacePackage ms2) := by
    simp only [ownQueue, hown]
    simp [TypeSpec.methods, embeddedQueue, List.flatMap_append, List.flatMap_cons]
  have hqueue2 : ownQueue tp interfacePackage
      { Name := name, Typ := .interfaceType (ms1 ++ ms2) }
      (stateAt pkg interfacePackage interfaceName fileAst) =
      embeddedQueue (stateAt pkg interfacePackage interfaceName fileAst).existingImports
          (ownImports tp interfacePackage { Name := name, Typ := .interfaceType (ms1 ++ ms2) }
            (stateAt pkg interfacePackage interfaceName fileAst)) interfacePackage ms1 ++
        embeddedQueue (stateAt pkg interfacePackage interfaceName fileAst).existingImports
          (ownImports tp interfacePackage { Name := name, Typ := .interfaceType (ms1 ++ ms2) }
            (stateAt pkg interfacePackage interfaceName fileAst)) interfacePackage ms2 := by
    simp [ownQueue, TypeSpec.methods, embeddedQueue, List.flatMap_append]
  have hall : ∀ q ∈ ownQueue tp interfacePackage
      { Name := name, Typ := .interfaceType (ms1 ++ f :: ms2) }
      (stateAt pkg interfacePackage interfaceName fileAst),
      (getInterfaceData w fuel q.1 q.2).isSome = true := by
    intro q hq
    rw [hqueue] at hq
    rcases List.mem_append.1 hq with h1 | h1
    · exact hrest q (by rw [hqueue2]; exact List.mem_append_left _ h1)
    · rcases List.mem_append.1 h1 with h2 | h2
      · obtain ⟨e, he⟩ := hfail q h2
        simp [he]
      · exact hrest q (by rw [hqueue2]; exact List.mem_append_right _ h2)
  have hmerged : mergedDescriptor (getInterfaceData w fuel) tp interfacePackage interfaceName
      pkg.Name { Name := name, Typ := .interfaceType (ms1 ++ f :: ms2) }
      (stateAt pkg interfacePackage interfaceName fileAst) =
      mergedDescriptor (getInterfaceData w fuel) tp interfacePackage interfaceName
        pkg.Name { Name := name, Typ := .interfaceType (ms1 ++ ms2) }
        (stateAt pkg interfacePackage interfaceName fileAst) := by
    simp only [mergedDescriptor, hown, hmeth, himpl]
    rw [hqueue, hqueue2]
    simp only [List.flatMap_append]
    rw [flatMap_embeddedImports_of_fail _ _ hfail, flatMap_embeddedMethods_of_fail _ _ hfail]
    simp
  constructor
  · rw [getInterfaceData_of_returns w fuel interfacePackage interfaceName pkg pre fileAst post
      _ tp hpkg hfiles hpre hpost hfile htp hall, hmerged]
  · rw [resolveInterface_eq_merge, mergeEmbedded_of_returns _ _ _ hrest]
    simp [mergedDescriptor, stateAt, initialState]

/-- Witness of C6: `Service` of `example.com/b` embeds `c.Missing`, whose
module cannot be loaded, and `a.Greeter`; its descriptor is the one of
`Service` without `c.Missing`. -/
theorem getInterfaceData_skips_failed_witness :
    getInterfaceData exampleWorld 1 "example.com/c" "Missing" =
      some (.error (.packageNotFound "example.com/c")) ∧
    getInterfaceData exampleWorld 2 "example.com/b" "Service" =
      some (.ok (mergedDescriptor (getInterfaceData exampleWorld 1) specTypeProcessor
        "example.com/b" "Service" "b" serviceSpecWithout (stateB "Service"))) ∧
    (mergedDescriptor (getInterfaceData exampleWorld 1) specTypeProcessor
        "example.com/b" "Service" "b" serviceSpecWithout (stateB "Service")).Methods.map
        (fun m => m.Name) = ["Serve", "Greet"] :=
  ⟨rfl,
    (getInterfaceData_skips_failed exampleWorld 1 "example.com/b" "Service" moduleB [] fileB []
      "Service" [] (embedded (.selector "c" "Missing"))
      [embedded (.selector "a" "Greeter"), stringMethod "Serve" []] specTypeProcessor
      rfl rfl (by simp) (by simp) rfl rfl rfl
      (by
        intro q hq
        have hlist : inspectField
            (stateAt moduleB "example.com/b" "Service" fileB).existingImports
            (ownImports specTypeProcessor "example.com/b"
              { Name := "Service"
                Typ := .interfaceType
                  ([] ++ [embedded (.selector "a" "Greeter"), stringMethod "Serve" []]) }
              (stateAt moduleB "example.com/b" "Service" fileB))
            "example.com/b" (embedded (.selector "c" "Missing")) =
            [("example.com/c", "Missing")] := by decide
        rw [hlist] at hq
        have hq1 : q = ("example.com/c", "Missing") := by simpa using hq
        rw [hq1]
        exact ⟨.packageNotFound "example.com/c", rfl⟩)
      (by decide)).1,
    by decide⟩

/-! ## The import list of a resolved interface -/

theorem resolveFiles_imports_head (w : World)
    (resolve : String → String → Option (Except Error InterfaceData)) (pkg : Package)
    (interfacePackage interfaceName : String) (files : List File) (st : ResolveState)
    (e : InterfaceData)
    (hdata : ∀ hd ∈ st.data.Imports.head?, hd.Path = interfacePackage)
    (hnew : (st.newImports.map (fun imp => imp.Path)).head? = some interfacePackage)
    (h : resolveFiles w resolve pkg interfacePackage interfaceName files st = some (.ok e)) :
    ∀ hd ∈ e.Imports.head?, hd.Path = interfacePackage := by
  induction files generalizing st with
  | nil =>
    simp only [resolveFiles, Option.some.injEq, Except.ok.injEq] at h
    rw [← h]
    exact hdata
  | cons f fs ih =>
    cases hf : getInterface w f interfaceName with
    | error err =>
      simp only [resolveFiles, hf] at h
      exact ih st hdata hnew h
    | ok ifaceTypeSpec =>
      cases htp : w.NewTypeProcessor pkg f.Filename with
      | error msg => simp [resolveFiles, hf, htp] at h
      | ok tp =>
        simp only [resolveFiles, hf, htp] at h
        rw [resolveInterface_eq_merge] at h
        cases hm : mergeEmbedded resolve
            (ownQueue tp interfacePackage ifaceTypeSpec
              { st with existingImports := updateAliases f st.existingImports })
            { st.data with
              Imports := ownImports tp interfacePackage ifaceTypeSpec
                { st with existingImports := updateAliases f st.existingImports }
              Methods := st.data.Methods ++ ownMethods tp interfacePackage ifaceTypeSpec
                { st with existingImports := updateAliases f st.existingImports }
              ImplementationType := ownImplementationType tp interfacePackage ifaceTypeSpec
                { st with existingImports := updateAliases f st.existingImports } } with
        | none =>
          rw [hm] at h
          simp at h
        | some d1 =>
          rw [hm] at h
          have hpaths := ownImports_paths tp interfacePackage ifaceTypeSpec
            { st with existingImports := updateAliases f st.existingImports }
          have hd1 := mergeEmbedded_eq _ _ _ _ hm
          refine ih _ ?_ ?_ h
          · intro hd hhd
            simp only [hd1] at hhd
            cases hown : ownImports tp interfacePackage ifaceTypeSpec
                { st with existingImports := updateAliases f st.existingImports } with
            | nil =>
              rw [hown] at hpaths
              rw [← hpaths] at hnew
              simp at hnew
            | cons a rest =>
              rw [hown] at hhd hpaths
              rw [← hpaths] at hnew
              simp at hhd hnew
              rw [← hhd]
              exact hnew
          · simp only [hpaths]
            exact hnew

theorem getInterfaceData_imports_head (w : World) (fuel : Nat)
    (interfacePackage interfaceName : String) (e : InterfaceData)
    (h : getInterfaceData w fuel interfacePackage interfaceName = some (.ok e)) :
    ∀ hd ∈ e.Imports.head?, hd.Path = interfacePackage := by
  cases fuel with
  | zero => simp [getInterfaceData] at h
  | succ fuel =>
    cases hpkg : getPackage w interfacePackage with
    | error err => simp [getInterfaceData, hpkg] at h
    | ok pkg =>
      simp only [getInterfaceData, hpkg] at h
      refine resolveFiles_imports_head w _ pkg interfacePackage interfaceName pkg.Syntax _ e
        ?_ ?_ h
      · simp [initialState]
      · simp [initialState, aliasImports_paths, loadNewImports]

/-! ## More fuel does not change a result -/

theorem mergeEmbedded_mono (r1 r2 : String → String → Option (Except Error InterfaceData))
    (hmono : ∀ a b x, r1 a b = some x → r2 a b = some x)
    (queue : List (String × String)) (data d : InterfaceData)
    (h : mergeEmbedded r1 queue data = some d) : mergeEmbedded r2 queue data = some d := by
  induction queue generalizing data with
  | nil => simpa [mergeEmbedded] using h
  | cons q qs ih =>
    cases hq : r1 q.1 q.2 with
    | none => simp [mergeEmbedded, hq] at h
    | some x =>
      have hq2 := hmono q.1 q.2 x hq
      cases x with
      | error e =>
        simp only [mergeEmbedded, hq] at h
        simp only [mergeEmbedded, hq2]
        exact ih _ h
      | ok e =>
        simp only [mergeEmbedded, hq] at h
        simp only [mergeEmbedded, hq2]
        exact ih _ h

theorem resolveInterface_mono (r1 r2 : String → String → Option (Except Error InterfaceData))
    (hmono : ∀ a b x, r1 a b = some x → r2 a b = some x) (tp : TypeProcessor)
    (interfacePackage : String) (ifaceTypeSpec : TypeSpec) (st st1 : ResolveState)
    (h : resolveInterface r1 tp interfacePackage ifaceTypeSpec st = some st1) :
    resolveInterface r2 tp interfacePackage ifaceTypeSpec st = some st1 := by
  rw [resolveInterface_eq_merge] at h ⊢
  cases hm : mergeEmbedded r1 (ownQueue tp interfacePackage ifaceTypeSpec st)
      { st.data with
        Imports := ownImports tp interfacePackage ifaceTypeSpec st
        Methods := st.data.Methods ++ ownMethods tp interfacePackage ifaceTypeSpec st
        ImplementationType := ownImplementationType tp interfacePackage ifaceTypeSpec st } with
  | none =>
    rw [hm] at h
    simp at h
  | some d =>
    rw [hm] at h
    rw [mergeEmbedded_mono r1 r2 hmono _ _ _ hm]
    exact h

theorem resolveFiles_mono (w : World)
    (r1 r2 : String → String → Option (Except Error InterfaceData))
    (hmono : ∀ a b x, r1 a b = some x → r2 a b = some x) (pkg : Package)
    (interfacePackage interfaceName : String) (files : List File) (st : ResolveState)
    (x : Except Error InterfaceData)
    (h : resolveFiles w r1 pkg interfacePackage interfaceName files st = some x) :
    resolveFiles w r2 pkg interfacePackage interfaceName files st = some x := by
  induction files generalizing st with
  | nil => simpa [resolveFiles] using h
  | cons f fs ih =>
    cases hf : getInterface w f interfaceName with
    | error err =>
      simp only [resolveFiles, hf] at h ⊢
      exact ih st h
    | ok ifaceTypeSpec =>
      cases htp : w.NewTypeProcessor pkg f.Filename with
      | error msg =>
        simp only [resolveFiles, hf, htp] at h ⊢
        exact h
      | ok tp =>
        simp only [resolveFiles, hf, htp] at h ⊢
        cases hri : resolveInterface r1 tp interfacePackage ifaceTypeSpec
            { st with existingImports := updateAliases f st.existingImports } with
        | none =>
          rw [hri] at h
          simp at h
        | some st1 =>
          rw [hri] at h
          rw [resolveInterface_mono r1 r2 hmono tp interfacePackage ifaceTypeSpec _ st1 hri]
          exact ih st1 h

theorem getInterfaceData_succ (w : World) (fuel : Nat) :
    ∀ (interfacePackage interfaceName : String) (x : Except Error InterfaceData),
      getInterfaceData w fuel interfacePackage interfaceName = some x →
      getInterfaceData w (fuel + 1) interfacePackage interfaceName = some x := by
  induction fuel with
  | zero =>
    intro interfacePackage interfaceName x h
    simp [getInterfaceData] at h
  | succ fuel ih =>
    intro interfacePackage interfaceName x h
    cases hpkg : getPackage w interfacePackage with
    | error err =>
      simp only [getInterfaceData, hpkg] at h ⊢
      exact h
    | ok pkg =>
      simp only [getInterfaceData, hpkg] at h ⊢
      exact resolveFiles_mono w (getInterfaceData w fuel) (getInterfaceData w (fuel + 1)) ih pkg
        interfacePackage interfaceName pkg.Syntax _ x h

theorem getInterfaceData_mono (w : World) (fuel extra : Nat)
    (interfacePackage interfaceName : String) (x : Except Error InterfaceData)
    (h : getInterfaceData w fuel interfacePackage interfaceName = some x) :
    getInterfaceData w (fuel + extra) interfacePackage interfaceName = some x := by
  induction extra with
  | zero => exact h
  | succ extra ih => exact getInterfaceData_succ w (fuel + extra) _ _ x ih

/-! ## An interface that no file declares -/

theorem resolveFiles_ne_interfaceNotFound (w : World)
    (resolve : String → String → Option (Except Error InterfaceData)) (pkg : Package)
    (interfacePackage interfaceName : String) (files : List File) (st : ResolveState)
    (name : String) :
    resolveFiles w resolve pkg interfacePackage interfaceName files st ≠
      some (.error (.interfaceNotFound name)) := by
  induction files generalizing st with
  | nil => simp [resolveFiles]
  | cons f fs ih =>
    cases hf : getInterface w f interfaceName with
    | error err =>
      simp only [resolveFiles, hf]
      exact ih st
    | ok ifaceTypeSpec =>
      cases htp : w.NewTypeProcessor pkg f.Filename with
      | error msg => simp [resolveFiles, hf, htp]
      | ok tp =>
        simp only [resolveFiles, hf, htp]
        cases hri : resolveInterface resolve tp interfacePackage ifaceTypeSpec
            { st with existingImports := updateAliases f st.existingImports } with
        | none => simp
        | some st1 => exact ih st1

theorem getInterfaceData_ne_interfaceNotFound (w : World) (fuel : Nat)
    (interfacePackage interfaceName name : String) :
    getInterfaceData w fuel interfacePackage interfaceName ≠
      some (.error (.interfaceNotFound name)) := by
  cases fuel with
  | zero => simp [getInterfaceData]
  | succ fuel =>
    cases hpkg : getPackage w interfacePackage with
    | error err =>
      simp only [getInterfaceData, hpkg]
      intro h
      simp only [Option.some.injEq, Except.error.injEq] at h
      rw [h] at hpkg
      unfold getPackage at hpkg
      cases hl : w.Load interfacePackage with
      | error msg => simp [hl] at hpkg
      | ok pkgs =>
        cases hfp : findPackage interfacePackage pkgs <;> simp [hl, hfp] at hpkg
    | ok pkg =>
      simp only [getInterfaceData, hpkg]
      exact resolveFiles_ne_interfaceNotFound w _ pkg interfacePackage interfaceName _ _ name

/-- C1, the code at a failing input: in module `example.com/a`, whose file
declares the struct `Config`, the unexported interface `hidden` and the
interface `Greeter`, the resolution of the absent name `Missing`, of the
struct `Config` and of the unexported `hidden` returns a descriptor without
imports and methods, and no error; with a formatter that accepts the rendered
text, `GenerateProxy` then returns nil and writes the file. -/
theorem getInterfaceData_missing_interface :
    getInterfaceData exampleWorld 1 "example.com/a" "Missing" =
      some (.ok (emptyDescriptor "example.com/a" "Missing" "a")) ∧
    getInterfaceData exampleWorld 1 "example.com/a" "Config" =
      some (.ok (emptyDescriptor "example.com/a" "Config" "a")) ∧
    getInterfaceData exampleWorld 1 "example.com/a" "hidden" =
      some (.ok (emptyDescriptor "example.com/a" "hidden" "a")) ∧
    (GenerateProxy exampleWorld 1 "example.com/a.Missing" "proxies" "MissingProxy"
        "out.go").map (fun r => (r.err, r.effects.length)) = some (none, 2) :=
  ⟨rfl, rfl, rfl, by decide⟩

/-- C2, the code at a failing input: in module `example.com/p`, `Top` embeds
`Left` and `Right`, which both embed `Base`; the import list of the descriptor
of `Top` holds the alias `importpBase0` twice. -/
theorem getInterfaceData_diamond_aliases :
    importAliases (getInterfaceData exampleWorld 3 "example.com/p" "Top") =
      ["importpTop0", "importpLeft0", "importpBase0", "importpRight0", "importpBase0"] ∧
    ¬ (importAliases (getInterfaceData exampleWorld 3 "example.com/p" "Top")).Nodup := by
  decide

/-- C4, the code at a failing input: `Add(a, b int) int` declares two
parameters, and its method data has the single parameter type `int`, so the
wrapper has the single parameter `arg0`. -/
theorem getInterfaceData_grouped_parameters :
    declaredCount addParams = 2 ∧
    methodParams (getInterfaceData exampleWorld 1 "example.com/calc" "Calc") =
      [("Add", ["int"]), ("Count", [])] ∧
    renderSignature "CalcProxy" { Name := "Add", Params := ["int"], Rets := ["int"] } =
      "\n\nfunc (this *CalcProxy) Add(\n   arg0 int,\n) (\n   int,\n) \x7b\n    " := by
  decide

/-! ## The imports fixed for the main package -/

theorem markPackageUsed_length (packagePath : String) (l : List ImportData) :
    (markPackageUsed packagePath l).length = l.length := by
  induction l with
  | nil => rfl
  | cons imp rest ih =>
    by_cases h : imp.Path = packagePath <;> simp [markPackageUsed, h, ih]

theorem markPackageUsed_getElem? (packagePath : String) (l : List ImportData) (i : Nat) :
    (markPackageUsed packagePath l)[i]? =
      (l[i]?).map (fun imp =>
        if imp.Path = packagePath ∧ ∀ x ∈ l.take i, x.Path ≠ packagePath then
          { imp with Used := true }
        else imp) := by
  induction l generalizing i with
  | nil => simp [markPackageUsed]
  | cons imp rest ih =>
    by_cases h : imp.Path = packagePath
    · cases i with
      | zero => simp [markPackageUsed, h]
      | succ j =>
        simp only [markPackageUsed, h, if_true, List.getElem?_cons_succ, List.take_succ_cons]
        cases hr : rest[j]? with
        | none => rfl
        | some x => simp [h]
    · cases i with
      | zero => simp [markPackageUsed, h]
      | succ j =>
        simp only [markPackageUsed, h, if_false, List.getElem?_cons_succ, List.take_succ_cons]
        rw [ih j]
        cases hr : rest[j]? with
        | none => rfl
        | some x => simp [h]

theorem renderHeader_eq (packageName name : String) (data : InterfaceData) :
    renderHeader packageName name data =
      "// Code generated by proxygen. DO NOT EDIT.\npackage " ++ packageName ++
      "\n\nimport (\n    proxygenInterceptors \"github.com/panagiotisptr/proxygen/interceptor\"" ++
      "\n    proxygenCaster \"github.com/panagiotisptr/proxygen/caster\"\n\n    " ++
      concatStrings (data.Imports.map (fun imp =>
        if imp.Used then "\n     " ++ imp.Alias ++ " \"" ++ imp.Path ++ "\" " else "\n    ")) ++
      "\n)\n\ntype " ++ name ++ " struct \x7b\n\tImplementation " ++ data.ImplementationType ++
      "\n\tInterceptors   proxygenInterceptors.InterceptorChain\n\x7d\n\nvar _ " ++
      data.ImplementationType ++ " = (*" ++ name ++ ")(nil)" := by
  have himp : ∀ imp : ImportData, renderImport imp =
      (if imp.Used then "\n     " ++ imp.Alias ++ " \"" ++ imp.Path ++ "\" " else "\n    ") := by
    intro imp
    cases hu : imp.Used
    · simp [renderImport, hu]
    · simp only [renderImport, hu, if_true]
      apply String.ext
      simp [String.data_append]
  simp only [renderHeader]
  rw [templateRange_map]
  have hmap : data.Imports.map renderImport =
      data.Imports.map (fun imp =>
        if imp.Used then "\n     " ++ imp.Alias ++ " \"" ++ imp.Path ++ "\" " else "\n    ") :=
    List.map_congr_left (fun imp _ => himp imp)
  rw [hmap]

/-- C8: the step of lines 82-90 keeps the length of the import list and every
field other than the imports; entry `i` of the list becomes used when the
output package name differs from the name of the declaring package, the path
of the entry is the module path of the interface and no earlier entry has that
path, and is unchanged otherwise (so nothing changes when the two names are
equal); an entry that is used is written into the import block with its alias
and its path; in the descriptor that `getInterfaceData` returns for the module
path, the first entry, when there is one, is the entry of the declaring
module, and it is the one that becomes used; `GenerateProxy` renders the
descriptor after this step; the import block of the header holds, for each
used entry in order, a line with its alias and its path. -/
theorem fixImports_spec (data : InterfaceData) (packagePath packageName : String) :
    (fixImports data packagePath packageName).Imports.length = data.Imports.length ∧
    (∀ i : Nat, (fixImports data packagePath packageName).Imports[i]? =
      (data.Imports[i]?).map (fun imp =>
        if data.OriginalPackageName ≠ packageName ∧ imp.Path = packagePath ∧
            ∀ x ∈ data.Imports.take i, x.Path ≠ packagePath then
          { imp with Used := true }
        else imp)) ∧
    { fixImports data packagePath packageName with Imports := data.Imports } = data ∧
    (∀ imp : ImportData, renderImport { imp with Used := true } =
      "\n    " ++ (" " ++ imp.Alias ++ " \"" ++ imp.Path ++ "\" ")) ∧
    (∀ (w : World) (fuel : Nat) (interfaceName : String) (imp : ImportData)
        (rest : List ImportData),
      getInterfaceData w fuel packagePath interfaceName = some (.ok data) →
      data.Imports = imp :: rest → data.OriginalPackageName ≠ packageName →
      imp.Path = packagePath ∧
      (fixImports data packagePath packageName).Imports = { imp with Used := true } :: rest) ∧
    (∀ (w : World) (fuel : Nat) (interfacePath name output src : String),
      (splitInterfacePath interfacePath).1 = packagePath →
      getInterfaceData w fuel packagePath (splitInterfacePath interfacePath).2 =
        some (.ok data) →
      w.formatSource (renderProxy packageName name (fixImports data packagePath packageName)) =
        .ok src →
      w.createFile output = .ok () → w.writeFile output src = .ok () →
      GenerateProxy w fuel interfacePath packageName name output =
        some { err := none, effects := [.create output, .write output src] }) ∧
    (∀ (name : String) (rendered : InterfaceData),
      renderHeader packageName name rendered =
        "// Code generated by proxygen. DO NOT EDIT.\npackage " ++ packageName ++
        "\n\nimport (\n    proxygenInterceptors \"github.com/panagiotisptr/proxygen/interceptor\"" ++
        "\n    proxygenCaster \"github.com/panagiotisptr/proxygen/caster\"\n\n    " ++
        concatStrings (rendered.Imports.map (fun imp =>
          if imp.Used then "\n     " ++ imp.Alias ++ " \"" ++ imp.Path ++ "\" " else "\n    ")) ++
        "\n)\n\ntype " ++ name ++ " struct \x7b\n\tImplementation " ++
        rendered.ImplementationType ++
        "\n\tInterceptors   proxygenInterceptors.InterceptorChain\n\x7d\n\nvar _ " ++
        rendered.ImplementationType ++ " = (*" ++ name ++ ")(nil)") := by
  refine ⟨?_, ?_, ?_, ?_, ?_, ?_, fun name rendered => renderHeader_eq packageName name rendered⟩
  · by_cases h : data.OriginalPackageName = packageName
    · simp [fixImports, h]
    · simp [fixImports, h, markPackageUsed_length]
  · intro i
    by_cases h : data.OriginalPackageName = packageName
    · cases hr : data.Imports[i]? <;> simp [fixImports, h, hr]
    · simp only [fixImports, ne_eq, h, not_false_eq_true, if_true, true_and]
      exact markPackageUsed_getElem? packagePath data.Imports i
  · cases data
    simp only [fixImports]
    split <;> rfl
  · intro imp
    simp [renderImport]
  · intro w fuel interfaceName imp rest hres himports hname
    have hpath := getInterfaceData_imports_head w fuel packagePath interfaceName data hres imp
      (by simp [himports])
    refine ⟨hpath, ?_⟩
    simp [fixImports, hname, himports, markPackageUsed, hpath]
  · intro w fuel interfacePath name output src hpath hres hformat hcreate hwrite
    simp [GenerateProxy, hpath, hres, hformat, hcreate, hwrite]

/-- Witness of C8: for `Logger` of `example.com/b` rendered into the package
`proxies`, the first entry is the one of `example.com/b` and it is used; when
no entry of the list is used before the step, that entry is used after it. -/
theorem fixImports_spec_witness :
    getInterfaceData exampleWorld 2 "example.com/b" "Logger" = some (.ok loggerDescriptor) ∧
    (fixImports loggerDescriptor "example.com/b" "proxies").Imports =
      [{ Path := "example.com/b", Name := "b", Alias := "importbLogger0", Used := true },
       { Path := "example.com/a", Name := "a", Alias := "importbLogger1", Used := false },
       { Path := "example.com/c", Name := "c", Alias := "importbLogger2", Used := false },
       { Path := "example.com/a", Name := "a", Alias := "importaGreeter0", Used := true }] ∧
    (fixImports unusedLoggerDescriptor "example.com/b" "proxies").Imports[0]? =
      some { Path := "example.com/b", Name := "b", Alias := "importbLogger0", Used := true } ∧
    unusedLoggerDescriptor.Imports[0]? =
      some { Path := "example.com/b", Name := "b", Alias := "importbLogger0", Used := false } :=
  ⟨rfl,
    ((fixImports_spec loggerDescriptor "example.com/b" "proxies").2.2.2.2.1 exampleWorld 2
      "Logger" _ _ rfl rfl (by decide)).2,
    ((fixImports_spec unusedLoggerDescriptor "example.com/b" "proxies").2.1 0).trans
      (by decide),
    by decide⟩

/-! ## The code builds the tables and the references of the spec -/

theorem removeQuotes_eq_namedPath (t : ImportSpec) : removeQuotes t.PathValue = namedPath t := by
  simp only [removeQuotes, namedPath]
  congr 1
  apply List.filter_congr
  intro c _
  by_cases hc : c = '"' <;> simp [hc]

theorem lastAlias_cons_some (t : ImportSpec) (ts : List ImportSpec) (path n : String)
    (hname : t.Name = some n) (hpath : namedPath t = path) :
    lastAlias (t :: ts) path = some ((lastAlias ts path).getD n) := by
  simp [lastAlias, List.filterMap_cons, hname, hpath, List.getLast?_cons]

theorem lastAlias_cons_skip (t : ImportSpec) (ts : List ImportSpec) (path : String)
    (h : t.Name = none ∨ namedPath t ≠ path) :
    lastAlias (t :: ts) path = lastAlias ts path := by
  rcases h with h | h
  · simp [lastAlias, List.filterMap_cons, h]
  · simp [lastAlias, List.filterMap_cons, h]

theorem foldl_updateAlias (specs : List ImportSpec) (l : List ImportData) :
    specs.foldl updateAlias l =
      l.map (fun imp => { imp with Alias := (lastAlias specs imp.Path).getD imp.Alias }) := by
  induction specs generalizing l with
  | nil =>
    simp only [List.foldl_nil]
    have hid : (fun imp : ImportData =>
        ({ imp with Alias := (lastAlias [] imp.Path).getD imp.Alias } : ImportData)) = id := by
      funext imp
      simp [lastAlias]
    rw [hid, List.map_id]
  | cons t ts ih =>
    simp only [List.foldl_cons]
    rw [ih]
    cases hname : t.Name with
    | none =>
      simp only [updateAlias, hname]
      apply List.map_congr_left
      intro imp _
      rw [lastAlias_cons_skip t ts imp.Path (Or.inl hname)]
    | some n =>
      simp only [updateAlias, hname, List.map_map]
      apply List.map_congr_left
      intro imp _
      by_cases hp : imp.Path = removeQuotes t.PathValue
      · have hp2 : namedPath t = imp.Path := by rw [hp, removeQuotes_eq_namedPath]
        simp [hp, lastAlias_cons_some t ts _ n hname (removeQuotes_eq_namedPath t).symm]
      · have hp2 : namedPath t ≠ imp.Path := by
          intro h
          exact hp (by rw [← h, removeQuotes_eq_namedPath])
        simp [hp, lastAlias_cons_skip t ts imp.Path (Or.inr hp2)]

theorem updateAliases_eq_declaredImports (pkg : Package) (fileAst : File) :
    updateAliases fileAst (loadExistingImports pkg) = declaredImports pkg fileAst := by
  simp [updateAliases, foldl_updateAlias, loadExistingImports, declaredImports, importEntry,
    authoredAlias]

theorem aliasImports_map_importEntry (a b : String) (k : Nat) (l : List PackageImport) :
    aliasImports a b k (l.map importEntry) =
      (l.enumFrom k).map (fun e =>
        ({ Path := e.2.PkgPath
           Name := e.2.Name
           Alias := "import" ++ a ++ b ++ toString e.1
           Used := false } : ImportData)) := by
  induction l generalizing k with
  | nil => simp [aliasImports]
  | cons imp rest ih =>
    simp [aliasImports, importEntry, importAlias, List.enumFrom_cons, ih]

theorem initialState_newImports (pkg : Package) (interfacePackage interfaceName : String) :
    (initialState pkg interfacePackage interfaceName).newImports =
      ownEntries pkg interfacePackage interfaceName := by
  have hload : loadNewImports interfacePackage pkg =
      (({ PkgPath := interfacePackage, Name := pkg.Name } : PackageImport) ::
        pkg.Imports).map importEntry := by
    simp [loadNewImports, importEntry]
  simp only [initialState, hload, aliasImports_map_importEntry, ownEntries, List.enum]

theorem ownEntries_length (pkg : Package) (interfacePackage interfaceName : String) :
    (ownEntries pkg interfacePackage interfaceName).length = pkg.Imports.length + 1 := by
  simp [ownEntries, List.enum]

theorem markUsed_keys (uses : Nat → Bool) (i : Nat) (l : List ImportData) :
    (markUsed uses i l).map entryKey = l.map entryKey := by
  induction l generalizing i with
  | nil => rfl
  | cons imp rest ih => simp [markUsed, ih, entryKey]

theorem correctFields_matches (tp : TypeProcessor) (existingImports table : List ImportData)
    (interfacePackage : String) (fs : List Field) (newImports : List ImportData)
    (hkeys : newImports.map entryKey = table.map entryKey) :
    List.Forall₂ (typeMatches tp existingImports table interfacePackage) fs
        (correctFields tp existingImports interfacePackage fs newImports).1 ∧
      (correctFields tp existingImports interfacePackage fs newImports).2.map entryKey =
        table.map entryKey := by
  induction fs generalizing newImports with
  | nil => exact ⟨List.Forall₂.nil, hkeys⟩
  | cons f fs ih =>
    have hnext : (tp.correctType f.Typ existingImports newImports interfacePackage).2.map
        entryKey = table.map entryKey := by
      simp only [TypeProcessor.correctType]
      rw [markUsed_keys]
      exact hkeys
    obtain ⟨h1, h2⟩ := ih _ hnext
    refine ⟨List.Forall₂.cons ⟨newImports, hkeys, rfl⟩ h1, h2⟩

theorem collectMethods_matches (tp : TypeProcessor) (existingImports table : List ImportData)
    (interfacePackage : String) (ms : List InterfaceField) (newImports : List ImportData)
    (hkeys : newImports.map entryKey = table.map entryKey) :
    List.Forall₂ (methodMatches tp existingImports table interfacePackage)
        (ms.filter (fun m => !m.Names.isEmpty))
        (collectMethods tp existingImports interfacePackage ms newImports).1 ∧
      (collectMethods tp existingImports interfacePackage ms newImports).2.map entryKey =
        table.map entryKey := by
  induction ms generalizing newImports with
  | nil => exact ⟨List.Forall₂.nil, hkeys⟩
  | cons m ms ih =>
    cases hn : m.Names with
    | nil =>
      obtain ⟨h1, h2⟩ := ih newImports hkeys
      simp only [collectMethods, methodOfField, hn, List.filter_cons, List.isEmpty_nil,
        Bool.not_true, Option.toList, List.nil_append]
      exact ⟨h1, h2⟩
    | cons name names =>
      cases ht : m.Typ with
      | func t =>
        obtain ⟨hp1, hp2⟩ := correctFields_matches tp existingImports table interfacePackage
          t.Params newImports hkeys
        obtain ⟨hr1, hr2⟩ := correctFields_matches tp existingImports table interfacePackage
          t.Results _ hp2
        obtain ⟨h1, h2⟩ := ih _ hr2
        simp only [collectMethods, methodOfField, hn, ht, List.filter_cons, List.isEmpty_cons,
          Bool.not_false, Option.toList, List.singleton_append, if_true]
        refine ⟨List.Forall₂.cons ?_ h1, h2⟩
        refine ⟨by simp [hn], ?_⟩
        rw [ht]
        intro _
        exact ⟨hp1, hr1⟩
      | expr e =>
        obtain ⟨h1, h2⟩ := ih newImports hkeys
        simp only [collectMethods, methodOfField, hn, ht, List.filter_cons, List.isEmpty_cons,
          Bool.not_false, Option.toList, List.singleton_append, if_true]
        refine ⟨List.Forall₂.cons ?_ h1, h2⟩
        refine ⟨by simp [hn], ?_⟩
        rw [ht]
        exact ⟨rfl, rfl⟩

theorem find?_path_of_mem (newImports : List ImportData) (path : String)
    (h : ∃ n ∈ newImports, n.Path = path) :
    ∃ m, newImports.find? (fun n => n.Path = path) = some m ∧ m.Path = path := by
  cases hf : newImports.find? (fun n => n.Path = path) with
  | none =>
    obtain ⟨n, hn, hp⟩ := h
    have := List.find?_eq_none.1 hf n hn
    simp [hp] at this
  | some m =>
    have hm := List.find?_some hf
    exact ⟨m, rfl, by simpa using hm⟩

theorem selectorTarget_declared (fileAst : File) (imps : List PackageImport)
    (newImports : List ImportData) (x sel : String)
    (hnew : ∀ imp ∈ imps, ∃ n ∈ newImports, n.Path = imp.PkgPath) :
    selectorTarget
        (imps.map (fun imp =>
          ({ Path := imp.PkgPath
             Name := imp.Name
             Alias := authoredAlias fileAst imp.PkgPath
             Used := false } : ImportData)))
        newImports x sel =
      (imps.find? (fun imp => localName fileAst imp == x)).map
        (fun imp => (imp.PkgPath, sel)) := by
  induction imps with
  | nil => simp [selectorTarget]
  | cons imp rest ih =>
    have hrest : ∀ i ∈ rest, ∃ n ∈ newImports, n.Path = i.PkgPath :=
      fun i hi => hnew i (List.mem_cons_of_mem imp hi)
    have ih2 := ih hrest
    simp only [selectorTarget] at ih2
    have hsel : ({ Path := imp.PkgPath
                   Name := imp.Name
                   Alias := authoredAlias fileAst imp.PkgPath
                   Used := false } : ImportData).Selector = localName fileAst imp := by
      by_cases ha : authoredAlias fileAst imp.PkgPath = "" <;>
        simp [ImportData.Selector, localName, ha]
    by_cases hx : localName fileAst imp = x
    · obtain ⟨m, hm, hmp⟩ := find?_path_of_mem newImports imp.PkgPath
        (hnew imp (List.mem_cons_self imp rest))
      simp [selectorTarget, hsel, hx, hm, hmp]
    · simp only [selectorTarget, List.map_cons, List.findSome?_cons, hsel, hx, if_false,
        List.find?_cons]
      have hbeq : (localName fileAst imp == x) = false := by simp [hx]
      rw [hbeq]
      exact ih2

theorem selectorTarget_eq (pkg : Package) (fileAst : File) (newImports : List ImportData)
    (x sel : String) (hnew : ∀ imp ∈ pkg.Imports, ∃ n ∈ newImports, n.Path = imp.PkgPath) :
    selectorTarget (declaredImports pkg fileAst) newImports x sel =
      (qualifiedModule pkg fileAst x).map (fun path => (path, sel)) := by
  simp only [declaredImports, qualifiedModule, Option.map_map]
  exact selectorTarget_declared fileAst pkg.Imports newImports x sel hnew

mutual
theorem inspectExpr_eq (pkg : Package) (fileAst : File) (newImports : List ImportData)
    (interfacePackage : String)
    (hnew : ∀ imp ∈ pkg.Imports, ∃ n ∈ newImports, n.Path = imp.PkgPath) :
    ∀ e : Expr, inspectExpr (declaredImports pkg fileAst) newImports interfacePackage e =
      (typeNames e).filterMap (referenceOf pkg fileAst interfacePackage)
  | .ident name => by simp [inspectExpr, typeNames, referenceOf]
  | .selector x sel => by
    simp only [inspectExpr, typeNames, selectorTarget_eq pkg fileAst newImports x sel hnew]
    cases hq : qualifiedModule pkg fileAst x <;> simp [referenceOf, hq]
  | .other _ children => by
    simp only [inspectExpr, typeNames]
    exact inspectExprs_eq pkg fileAst newImports interfacePackage hnew children
theorem inspectExprs_eq (pkg : Package) (fileAst : File) (newImports : List ImportData)
    (interfacePackage : String)
    (hnew : ∀ imp ∈ pkg.Imports, ∃ n ∈ newImports, n.Path = imp.PkgPath) :
    ∀ es : List Expr, inspectExprs (declaredImports pkg fileAst) newImports interfacePackage es =
      (typeNamesOfList es).filterMap (referenceOf pkg fileAst interfacePackage)
  | [] => by simp [inspectExprs, typeNamesOfList]
  | e :: es => by
    simp only [inspectExprs, typeNamesOfList, List.filterMap_append]
    rw [inspectExpr_eq pkg fileAst newImports interfacePackage hnew e,
      inspectExprs_eq pkg fileAst newImports interfacePackage hnew es]
end

theorem inspectParams_eq (pkg : Package) (fileAst : File) (newImports : List ImportData)
    (interfacePackage : String)
    (hnew : ∀ imp ∈ pkg.Imports, ∃ n ∈ newImports, n.Path = imp.PkgPath)
    (fields : List Field) :
    fields.flatMap (inspectParam (declaredImports pkg fileAst) newImports interfacePackage) =
      ((fields.filter (fun f => f.Names.isEmpty)).flatMap (fun f => typeNames f.Typ)).filterMap
        (referenceOf pkg fileAst interfacePackage) := by
  induction fields with
  | nil => simp
  | cons f fs ih =>
    cases hn : f.Names with
    | nil =>
      simp only [List.flatMap_cons, ih, inspectParam, hn, List.length_nil, if_true,
        List.filter_cons, List.isEmpty_nil, List.filterMap_append,
        inspectExpr_eq pkg fileAst newImports interfacePackage hnew f.Typ]
    | cons a as =>
      simp [List.flatMap_cons, ih, inspectParam, hn, List.filter_cons]

theorem inspectField_eq (pkg : Package) (fileAst : File) (newImports : List ImportData)
    (interfacePackage : String)
    (hnew : ∀ imp ∈ pkg.Imports, ∃ n ∈ newImports, n.Path = imp.PkgPath)
    (m : InterfaceField) :
    inspectField (declaredImports pkg fileAst) newImports interfacePackage m =
      (entryTypeNames m).filterMap (referenceOf pkg fileAst interfacePackage) := by
  cases hn : m.Names with
  | nil =>
    cases ht : m.Typ with
    | expr e =>
      simp only [inspectField, entryTypeNames, hn, ht, List.length_nil, if_true]
      exact inspectExpr_eq pkg fileAst newImports interfacePackage hnew e
    | func t =>
      simp only [inspectField, entryTypeNames, hn, ht, List.length_nil, if_true]
      exact inspectParams_eq pkg fileAst newImports interfacePackage hnew _
  | cons a as => simp [inspectField, entryTypeNames, hn]

theorem embeddedQueue_eq (pkg : Package) (fileAst : File) (newImports : List ImportData)
    (interfacePackage : String)
    (hnew : ∀ imp ∈ pkg.Imports, ∃ n ∈ newImports, n.Path = imp.PkgPath)
    (ms : List InterfaceField) :
    embeddedQueue (declaredImports pkg fileAst) newImports interfacePackage ms =
      embeddedReferences pkg fileAst interfacePackage ms := by
  induction ms with
  | nil => simp [embeddedQueue, embeddedReferences]
  | cons m ms ih =>
    simp only [embeddedQueue, embeddedReferences, List.flatMap_cons, List.filterMap_append]
      at ih ⊢
    rw [ih, inspectField_eq pkg fileAst newImports interfacePackage hnew m]

theorem stateAt_existingImports (pkg : Package) (interfacePackage interfaceName : String)
    (fileAst : File) :
    (stateAt pkg interfacePackage interfaceName fileAst).existingImports =
      declaredImports pkg fileAst := by
  simp only [stateAt]
  exact updateAliases_eq_declaredImports pkg fileAst

theorem stateAt_newImports (pkg : Package) (interfacePackage interfaceName : String)
    (fileAst : File) :
    (stateAt pkg interfacePackage interfaceName fileAst).newImports =
      ownEntries pkg interfacePackage interfaceName := by
  simp only [stateAt]
  exact initialState_newImports pkg interfacePackage interfaceName

theorem ownImports_keys (tp : TypeProcessor) (interfacePackage : String)
    (ifaceTypeSpec : TypeSpec) (st : ResolveState) :
    (ownImports tp interfacePackage ifaceTypeSpec st).map entryKey =
      st.newImports.map entryKey := by
  simp only [ownImports, TypeProcessor.correctType]
  rw [markUsed_keys]
  exact (collectMethods_matches tp st.existingImports st.newImports interfacePackage
    ifaceTypeSpec.methods st.newImports rfl).2

theorem ownQueue_eq (tp : TypeProcessor) (pkg : Package)
    (interfacePackage interfaceName : String) (fileAst : File) (ifaceTypeSpec : TypeSpec) :
    ownQueue tp interfacePackage ifaceTypeSpec
        (stateAt pkg interfacePackage interfaceName fileAst) =
      embeddedReferences pkg fileAst interfacePackage ifaceTypeSpec.methods := by
  simp only [ownQueue, stateAt_existingImports]
  apply embeddedQueue_eq
  intro imp himp
  have hpaths := ownImports_paths tp interfacePackage ifaceTypeSpec
    (stateAt pkg interfacePackage interfaceName fileAst)
  rw [stateAt_paths] at hpaths
  have hmem : imp.PkgPath ∈ (ownImports tp interfacePackage ifaceTypeSpec
      (stateAt pkg interfacePackage interfaceName fileAst)).map (fun i => i.Path) := by
    rw [hpaths]
    exact List.mem_cons_of_mem _ (List.mem_map.2 ⟨imp, himp, rfl⟩)
  obtain ⟨n, hn, hp⟩ := List.mem_map.1 hmem
  exact ⟨n, hn, hp⟩

theorem getInterface_of_not_exported (w : World) (fileAst : File) (name : String)
    (h : IsExported w.IsUpper name = false) :
    getInterface w fileAst name = .error (.interfaceNotFound name) := by
  have hfold : ∀ ts : List TypeSpec,
      ts.foldl (getInterfaceVisit w.IsUpper name) none = none := by
    intro ts
    induction ts with
    | nil => rfl
    | cons t ts ih =>
      have hvisit : getInterfaceVisit w.IsUpper name none t = none := by
        by_cases hn : t.Name = name
        · simp [getInterfaceVisit, hn, h]
        · by_cases he : IsExported w.IsUpper t.Name = true <;>
            simp [getInterfaceVisit, hn, he]
      simp only [List.foldl_cons, hvisit, ih]
  simp [getInterface, hfold]

theorem embeddedMethods_of_not_declared (w : World) (fuel : Nat) (path name : String)
    (h : ∀ pkg1, getPackage w path = .ok pkg1 →
      ∀ f ∈ pkg1.Syntax, getInterface w f name = .error (.interfaceNotFound name)) :
    embeddedMethods (getInterfaceData w fuel path name) = [] := by
  cases fuel with
  | zero => simp [getInterfaceData, embeddedMethods]
  | succ fuel =>
    cases hpkg : getPackage w path with
    | error e => simp [getInterfaceData, hpkg, embeddedMethods]
    | ok pkg1 =>
      simp only [getInterfaceData, hpkg]
      rw [resolveFiles_notFound w _ pkg1 path name pkg1.Syntax _ (h pkg1 hpkg)]
      simp [embeddedMethods, initialState]

/-! ## The method list of a resolved interface -/

/-- C3, as amended: let exactly one file of the module declare the interface
(as an exported interface type with the requested name), and let `resolve`
return a descriptor.  Its method list starts with one method for each named
entry of the interface body, in source order, under the first name of the
entry and with the qualified types of its fields; the rest of the list is, for
each embedded reference in the order of discovery, the method list that the
resolution of the reference returns.  The embedded references are the type
names of the entries without a name: a bare name refers to the same module, a
qualified name to the module that the declaring file imports under the
qualifier.  A reference contributes nothing when no file of a loaded module
declares it, in particular when its name is not exported (the built-in
`error`, an unexported interface).  An interface all of whose entries are
named has exactly its own methods. -/
theorem getInterfaceData_methods (w : World) (fuel : Nat)
    (interfacePackage interfaceName : String) (pkg : Package) (pre : List File)
    (fileAst : File) (post : List File) (ifaceTypeSpec : TypeSpec) (tp : TypeProcessor)
    (d : InterfaceData)
    (hpkg : getPackage w interfacePackage = .ok pkg)
    (hfiles : pkg.Syntax = pre ++ fileAst :: post)
    (hpre : ∀ f ∈ pre, getInterface w f interfaceName = .error (.interfaceNotFound interfaceName))
    (hpost : ∀ f ∈ post,
      getInterface w f interfaceName = .error (.interfaceNotFound interfaceName))
    (hfile : getInterface w fileAst interfaceName = .ok ifaceTypeSpec)
    (htp : w.NewTypeProcessor pkg fileAst.Filename = .ok tp)
    (hres : getInterfaceData w (fuel + 1) interfacePackage interfaceName = some (.ok d)) :
    List.Forall₂
      (methodMatches tp (declaredImports pkg fileAst)
        (ownEntries pkg interfacePackage interfaceName) interfacePackage)
      (ifaceTypeSpec.methods.filter (fun m => !m.Names.isEmpty))
      (d.Methods.take (ifaceTypeSpec.methods.filter (fun m => !m.Names.isEmpty)).length) ∧
    d.Methods.drop (ifaceTypeSpec.methods.filter (fun m => !m.Names.isEmpty)).length =
      (embeddedReferences pkg fileAst interfacePackage ifaceTypeSpec.methods).flatMap
        (fun q => embeddedMethods (getInterfaceData w fuel q.1 q.2)) ∧
    (∀ path name : String,
      (∀ pkg1, getPackage w path = .ok pkg1 →
        ∀ f ∈ pkg1.Syntax, getInterface w f name = .error (.interfaceNotFound name)) →
      embeddedMethods (getInterfaceData w fuel path name) = []) ∧
    (∀ path name : String, IsExported w.IsUpper name = false →
      embeddedMethods (getInterfaceData w fuel path name) = []) ∧
    ((∀ m ∈ ifaceTypeSpec.methods, m.Names ≠ []) →
      List.Forall₂
        (methodMatches tp (declaredImports pkg fileAst)
          (ownEntries pkg interfacePackage interfaceName) interfacePackage)
        ifaceTypeSpec.methods d.Methods) := by
  have hd := getInterfaceData_merged w fuel interfacePackage interfaceName pkg pre fileAst post
    ifaceTypeSpec tp d hpkg hfiles hpre hpost hfile htp hres
  have hmatch := (collectMethods_matches tp (declaredImports pkg fileAst)
    (ownEntries pkg interfacePackage interfaceName) interfacePackage ifaceTypeSpec.methods
    (ownEntries pkg interfacePackage interfaceName) rfl).1
  have hown : ownMethods tp interfacePackage ifaceTypeSpec
      (stateAt pkg interfacePackage interfaceName fileAst) =
      (collectMethods tp (declaredImports pkg fileAst) interfacePackage ifaceTypeSpec.methods
        (ownEntries pkg interfacePackage interfaceName)).1 := by
    simp only [ownMethods, stateAt_existingImports, stateAt_newImports]
  have hmethods : d.Methods =
      (collectMethods tp (declaredImports pkg fileAst) interfacePackage ifaceTypeSpec.methods
        (ownEntries pkg interfacePackage interfaceName)).1 ++
      (embeddedReferences pkg fileAst interfacePackage ifaceTypeSpec.methods).flatMap
        (fun q => embeddedMethods (getInterfaceData w fuel q.1 q.2)) := by
    rw [hd]
    simp only [mergedDescriptor, hown, ownQueue_eq]
  have hlen := hmatch.length_eq
  refine ⟨?_, ?_, ?_, ?_, ?_⟩
  · rw [hmethods, List.take_left' hlen.symm]
    exact hmatch
  · rw [hmethods, List.drop_left' hlen.symm]
  · intro path name h
    exact embeddedMethods_of_not_declared w fuel path name h
  · intro path name h
    exact embeddedMethods_of_not_declared w fuel path name
      (fun _ _ f _ => getInterface_of_not_exported w f name h)
  · intro hnamed
    have hfilter : ifaceTypeSpec.methods.filter (fun m => !m.Names.isEmpty) =
        ifaceTypeSpec.methods := by
      rw [List.filter_eq_self]
      intro m hm
      have := hnamed m hm
      cases hn : m.Names with
      | nil => exact absurd hn this
      | cons a as => simp
    have hrefs : embeddedReferences pkg fileAst interfacePackage ifaceTypeSpec.methods = [] := by
      rw [← ownQueue_eq tp pkg interfacePackage interfaceName fileAst ifaceTypeSpec]
      exact embeddedQueue_of_named _ _ _ _ hnamed
    rw [hfilter] at hmatch
    rw [hmethods, hrefs]
    simpa using hmatch

/-- Witness of C3 as amended: `Host` of `example.com/g` embeds `ga.Greeter`,
where the file imports `example.com/a` under the name `ga`; after its own
`Host` comes the `Greet` of `Greeter` of `example.com/a`. -/
theorem getInterfaceData_methods_witness :
    getInterfaceData extendedWorld 2 "example.com/g" "Host" = some (.ok hostDescriptor) ∧
    hostDescriptor.Methods.drop 1 =
      (embeddedReferences moduleG fileG "example.com/g" hostSpec.methods).flatMap
        (fun q => embeddedMethods (getInterfaceData extendedWorld 1 q.1 q.2)) ∧
    embeddedReferences moduleG fileG "example.com/g" hostSpec.methods =
      [("example.com/a", "Greeter")] ∧
    hostDescriptor.Methods.map (fun m => m.Name) = ["Host", "Greet"] :=
  ⟨rfl,
    (getInterfaceData_methods extendedWorld 1 "example.com/g" "Host" moduleG [] fileG []
      hostSpec specTypeProcessor hostDescriptor rfl rfl (by simp) (by simp) rfl rfl rfl).2.1,
    by decide, by decide⟩

/-- Counterexample to C3: in module `example.com/e`, `Store` embeds the
unexported interface `base`, which declares `Flush`, and the built-in `error`,
and the method list of its descriptor is `Save` alone; in module
`example.com/k`, where two files declare `X`, the method list is `A`, then the
embedded `Greet`, then the `B` of the second file. -/
theorem embedded_methods_missing :
    methodNames (getInterfaceData extendedWorld 2 "example.com/e" "Store") = ["Save"] ∧
    baseSpec.methods.filterMap (fun m => m.Names.head?) = ["Flush"] ∧
    methodNames (getInterfaceData extendedWorld 2 "example.com/k" "X") = ["A", "Greet", "B"] := by
  decide

/-! ## The import list of a resolved interface and the import block -/

theorem emittedFor_append (path : String) (l1 l2 : List ImportData) :
    emittedFor path (l1 ++ l2) = emittedFor path l1 ++ emittedFor path l2 := by
  simp [emittedFor]

theorem emittedFor_flatMap {α : Type} (path : String) (l : List α) (f : α → List ImportData) :
    emittedFor path (l.flatMap f) = l.flatMap (fun a => emittedFor path (f a)) := by
  induction l with
  | nil => simp [emittedFor]
  | cons a rest ih => simp [List.flatMap_cons, emittedFor_append, ih]

/-- C7, as amended: imports are not deduplicated by module path; the import
block holds the used entries of the import list.  Let exactly one file of the
module `b` declare the interface, and let `resolve` return a descriptor.  The
list of its imports is the own entries of the interface (the module itself,
then each module it imports, under their fresh aliases), followed by the lists
that the resolutions of the embedded references return, unchanged and in the
order of discovery.  So, when no own entry with the path of a module `a` is
used (Scenario B, where `Log(msg string)` names no type of `a`), the used
entries with the path of `a` are those of the embedded descriptors; and when
an own entry with the path of `a` and an entry of an embedded descriptor with
that path are both used, the import block holds the path of `a` at least
twice. -/
theorem getInterfaceData_imports (w : World) (fuel : Nat)
    (interfacePackage interfaceName : String) (pkg : Package) (pre : List File)
    (fileAst : File) (post : List File) (ifaceTypeSpec : TypeSpec) (tp : TypeProcessor)
    (d : InterfaceData)
    (hpkg : getPackage w interfacePackage = .ok pkg)
    (hfiles : pkg.Syntax = pre ++ fileAst :: post)
    (hpre : ∀ f ∈ pre, getInterface w f interfaceName = .error (.interfaceNotFound interfaceName))
    (hpost : ∀ f ∈ post,
      getInterface w f interfaceName = .error (.interfaceNotFound interfaceName))
    (hfile : getInterface w fileAst interfaceName = .ok ifaceTypeSpec)
    (htp : w.NewTypeProcessor pkg fileAst.Filename = .ok tp)
    (hres : getInterfaceData w (fuel + 1) interfacePackage interfaceName = some (.ok d)) :
    (d.Imports.take (pkg.Imports.length + 1)).map entryKey =
      (ownEntries pkg interfacePackage interfaceName).map entryKey ∧
    d.Imports.drop (pkg.Imports.length + 1) =
      (embeddedReferences pkg fileAst interfacePackage ifaceTypeSpec.methods).flatMap
        (fun q => embeddedImports (getInterfaceData w fuel q.1 q.2)) ∧
    (∀ path : String,
      (∀ imp ∈ d.Imports.take (pkg.Imports.length + 1), imp.Path = path → imp.Used = false) →
      emittedFor path d.Imports =
        (embeddedReferences pkg fileAst interfacePackage ifaceTypeSpec.methods).flatMap
          (fun q => emittedFor path (embeddedImports (getInterfaceData w fuel q.1 q.2)))) ∧
    (∀ path : String,
      (∃ imp ∈ d.Imports.take (pkg.Imports.length + 1), imp.Path = path ∧ imp.Used = true) →
      (∃ q ∈ embeddedReferences pkg fileAst interfacePackage ifaceTypeSpec.methods,
        ∃ imp ∈ embeddedImports (getInterfaceData w fuel q.1 q.2),
          imp.Path = path ∧ imp.Used = true) →
      2 ≤ (emittedFor path d.Imports).length) := by
  have hd := getInterfaceData_merged w fuel interfacePackage interfaceName pkg pre fileAst post
    ifaceTypeSpec tp d hpkg hfiles hpre hpost hfile htp hres
  have hkeys : (ownImports tp interfacePackage ifaceTypeSpec
      (stateAt pkg interfacePackage interfaceName fileAst)).map entryKey =
      (ownEntries pkg interfacePackage interfaceName).map entryKey := by
    rw [ownImports_keys, stateAt_newImports]
  have hlen : (ownImports tp interfacePackage ifaceTypeSpec
      (stateAt pkg interfacePackage interfaceName fileAst)).length = pkg.Imports.length + 1 := by
    have h := congrArg List.length hkeys
    simpa [ownEntries_length] using h
  have himports : d.Imports =
      ownImports tp interfacePackage ifaceTypeSpec
          (stateAt pkg interfacePackage interfaceName fileAst) ++
        (embeddedReferences pkg fileAst interfacePackage ifaceTypeSpec.methods).flatMap
          (fun q => embeddedImports (getInterfaceData w fuel q.1 q.2)) := by
    rw [hd]
    simp only [mergedDescriptor, ownQueue_eq]
  have htake : d.Imports.take (pkg.Imports.length + 1) =
      ownImports tp interfacePackage ifaceTypeSpec
        (stateAt pkg interfacePackage interfaceName fileAst) := by
    rw [himports, List.take_left' hlen]
  have hdrop : d.Imports.drop (pkg.Imports.length + 1) =
      (embeddedReferences pkg fileAst interfacePackage ifaceTypeSpec.methods).flatMap
        (fun q => embeddedImports (getInterfaceData w fuel q.1 q.2)) := by
    rw [himports, List.drop_left' hlen]
  have hsplit : ∀ path : String, emittedFor path d.Imports =
      emittedFor path (d.Imports.take (pkg.Imports.length + 1)) ++
        (embeddedReferences pkg fileAst interfacePackage ifaceTypeSpec.methods).flatMap
          (fun q => emittedFor path (embeddedImports (getInterfaceData w fuel q.1 q.2))) := by
    intro path
    rw [← emittedFor_flatMap, ← hdrop, ← emittedFor_append, List.take_append_drop]
  refine ⟨by rw [htake, hkeys], hdrop, ?_, ?_⟩
  · intro path hunused
    have hnil : emittedFor path (d.Imports.take (pkg.Imports.length + 1)) = [] := by
      simp only [emittedFor, List.filter_eq_nil_iff]
      intro imp himp
      by_cases hp : imp.Path = path
      · simp [hunused imp himp hp]
      · simp [hp]
    rw [hsplit path, hnil, List.nil_append]
  · intro path hown hemb
    obtain ⟨imp, himp, hp, hu⟩ := hown
    obtain ⟨q, hq, imp2, himp2, hp2, hu2⟩ := hemb
    have h1 : imp ∈ emittedFor path (d.Imports.take (pkg.Imports.length + 1)) := by
      simp [emittedFor, himp, hp, hu]
    have h2 : imp2 ∈
        (embeddedReferences pkg fileAst interfacePackage ifaceTypeSpec.methods).flatMap
          (fun q => emittedFor path (embeddedImports (getInterfaceData w fuel q.1 q.2))) := by
      rw [List.mem_flatMap]
      exact ⟨q, hq, by simp [emittedFor, himp2, hp2, hu2]⟩
    rw [hsplit path, List.length_append]
    have l1 := List.length_pos_of_mem h1
    have l2 := List.length_pos_of_mem h2
    omega

/-- Witness of C7 as amended: in Scenario B (`Logger` of `example.com/b` embeds
`a.Greeter` and adds `Log(p string)`), the used entries with the path of
`example.com/a` are those of the descriptor of `Greeter`: exactly one. -/
theorem getInterfaceData_imports_witness :
    getInterfaceData exampleWorld 2 "example.com/b" "Logger" = some (.ok loggerDescriptor) ∧
    emittedFor "example.com/a" loggerDescriptor.Imports =
      (embeddedReferences moduleB fileB "example.com/b" loggerSpec.methods).flatMap
        (fun q => emittedFor "example.com/a"
          (embeddedImports (getInterfaceData exampleWorld 1 q.1 q.2))) ∧
    emittedFor "example.com/a" loggerDescriptor.Imports =
      [{ Path := "example.com/a", Name := "a", Alias := "importaGreeter0", Used := true }] :=
  ⟨rfl,
    (getInterfaceData_imports exampleWorld 1 "example.com/b" "Logger" moduleB [] fileB []
      loggerSpec specTypeProcessor loggerDescriptor rfl rfl (by simp) (by simp) rfl rfl
      rfl).2.2.1 "example.com/a" (by decide),
    by decide⟩

/-- Counterexample to C7: `Auditor` of `example.com/b` embeds `a.Greeter` and
declares `Audit(m a.Message)`; the used entries of its descriptor, which are
the ones rendered into the import block, have the paths `example.com/b`,
`example.com/a` and `example.com/a`. -/
theorem imports_not_deduplicated :
    emittedPaths (getInterfaceData exampleWorld 2 "example.com/b" "Auditor") =
      ["example.com/b", "example.com/a", "example.com/a"] ∧
    ¬ (emittedPaths (getInterfaceData exampleWorld 2 "example.com/b" "Auditor")).Nodup := by
  decide

end Proxygen
